import Mathlib

/-!
Verification development for the Poole Town U18 fixtures calendar builder
(`scripts/build_poole_u18_ics.py`).  The script is shallowly embedded:

* civil date-times are `Civil` records of numerals; Python `datetime`
  arithmetic (`+ timedelta`, `strptime`, `strftime`) is modelled by explicit
  carry/borrow functions and digit rendering;
* the Europe/London rules used through `zoneinfo` are modelled from the tz
  database: BST (UTC+1) between 01:00 UTC on the last Sunday of March and
  01:00 UTC on the last Sunday of October, with PEP-495 fold=0 resolution of
  ambiguous and non-existent wall-clock times;
* JSON records are association lists of `JVal` leaves, with Python
  truthiness (`or` chains) modelled explicitly;
* the per-run reconciliation loop of `main` is a fold over the fixture list
  threading the persisted state, the seen-UID set and the change lists.
-/

set_option maxRecDepth 4000

namespace PooleCal

/-- Civil (wall-clock) date-time to minute precision.  The script's parsed
fixture datetimes always have zero seconds, so seconds are rendered as the
literal "00" wherever `strftime` prints them. -/
structure Civil where
  year : Nat
  month : Nat
  day : Nat
  hour : Nat
  minute : Nat
deriving DecidableEq

/-- Gregorian leap-year test, as in Python's `calendar`/`datetime`. -/
def isLeap (y : Nat) : Bool :=
  y % 4 == 0 && (y % 100 != 0 || y % 400 == 0)

/-- Length of month `m` (1..12); `lp` says whether the year is leap. -/
def monthLen (lp : Bool) : Nat → Nat
  | 1 => 31
  | 2 => if lp then 29 else 28
  | 3 => 31
  | 4 => 30
  | 5 => 31
  | 6 => 30
  | 7 => 31
  | 8 => 31
  | 9 => 30
  | 10 => 31
  | 11 => 30
  | 12 => 31
  | _ => 0

/-- Days in the months strictly before month `m`. -/
def daysBefore (lp : Bool) : Nat → Nat
  | 0 => 0
  | 1 => 0
  | (m + 1) => daysBefore lp m + monthLen lp m

/-- A `Civil` value that `datetime` would accept (and that the parser can
produce): month 1..12, day within the month, hour/minute in range, and a
positive year (`datetime.MINYEAR = 1`). -/
def Civil.Valid (c : Civil) : Prop :=
  1 ≤ c.year ∧ 1 ≤ c.month ∧ c.month ≤ 12 ∧ 1 ≤ c.day ∧
    c.day ≤ monthLen (isLeap c.year) c.month ∧ c.hour ≤ 23 ∧ c.minute ≤ 59

instance (c : Civil) : Decidable c.Valid := by
  unfold Civil.Valid; infer_instance

/-- One-based day of the year. -/
def dayOfYear (c : Civil) : Nat :=
  daysBefore (isLeap c.year) c.month + c.day

/-- Minute index of a civil time within its own year (Jan 1 00:00 ↦ 1440). -/
def yearKey (c : Civil) : Nat :=
  dayOfYear c * 1440 + c.hour * 60 + c.minute

/-- Number of leap years in `[0, y)`. -/
def leapsBefore (y : Nat) : Nat :=
  (y + 3) / 4 - (y + 99) / 100 + (y + 399) / 400

/-- Days in the years `[0, y)`. -/
def daysBeforeYear (y : Nat) : Nat :=
  365 * y + leapsBefore y

/-- Absolute minute count of a civil instant (minutes from a fixed origin);
used to state that `timedelta` arithmetic moves instants by exact amounts. -/
def absMin (c : Civil) : Nat :=
  (daysBeforeYear c.year + dayOfYear c) * 1440 + c.hour * 60 + c.minute

/-- Model of `datetime + timedelta(hours=1)`: carry into day/month/year. -/
def add1h (c : Civil) : Civil :=
  if c.hour < 23 then { c with hour := c.hour + 1 }
  else if c.day < monthLen (isLeap c.year) c.month then
    { c with hour := 0, day := c.day + 1 }
  else if c.month < 12 then
    { c with hour := 0, day := 1, month := c.month + 1 }
  else
    ⟨c.year + 1, 1, 1, 0, c.minute⟩

/-- Model of `datetime - timedelta(hours=1)`: borrow from day/month/year. -/
def sub1h (c : Civil) : Civil :=
  if 1 ≤ c.hour then { c with hour := c.hour - 1 }
  else if 2 ≤ c.day then { c with hour := 23, day := c.day - 1 }
  else if 2 ≤ c.month then
    { c with hour := 23, day := monthLen (isLeap c.year) (c.month - 1),
             month := c.month - 1 }
  else
    ⟨c.year - 1, 12, 31, 23, c.minute⟩

/-- Zeller's congruence; result `0` is Sunday. -/
def dow (y m d : Nat) : Nat :=
  let mz := if m < 3 then m + 12 else m
  let yz := if m < 3 then y - 1 else y
  let k := yz % 100
  let j := yz / 100
  ((d + 13 * (mz + 1) / 5 + k + k / 4 + j / 4 + 5 * j) % 7 + 6) % 7

/-- Day of month of the last Sunday of March of year `y`. -/
def springDay (y : Nat) : Nat := 31 - dow y 3 31

/-- Day of month of the last Sunday of October of year `y`. -/
def autumnDay (y : Nat) : Nat := 31 - dow y 10 31

/-- Year-key of the first BST wall-clock instant (last Sunday of March,
02:00 local). -/
def springK (y : Nat) : Nat :=
  (daysBefore (isLeap y) 3 + springDay y) * 1440 + 120

/-- Year-key of the first post-BST GMT wall-clock instant (last Sunday of
October, 02:00 local — local readings in [01:00,02:00) that day are
ambiguous and resolve, with fold=0, to the earlier = BST reading). -/
def autumnK (y : Nat) : Nat :=
  (daysBefore (isLeap y) 10 + autumnDay y) * 1440 + 120

/-- Modelled from the tz database (the script reaches it through
`zoneinfo.ZoneInfo("Europe/London")`, which is not part of the repository):
whether a naive wall-clock time, resolved with fold=0, carries the BST
(+1 h) offset.  Wall-clock times in the spring gap get the pre-transition
GMT offset; ambiguous autumn times get the earlier (BST) offset. -/
def isBSTlocal (c : Civil) : Bool :=
  springK c.year ≤ yearKey c && yearKey c < autumnK c.year

/-- Modelled from the tz database: whether a UTC instant falls in the BST
period `[last Sunday of March 01:00 UTC, last Sunday of October 01:00 UTC)`
of its year. -/
def isBSTutc (c : Civil) : Bool :=
  springK c.year - 60 ≤ yearKey c && yearKey c < autumnK c.year - 60

/-- Model of `dt.replace(tzinfo=ZoneInfo("Europe/London")).astimezone(utc)`
for a naive wall-clock `dt` (fold=0). -/
def londonToUtc (c : Civil) : Civil :=
  if isBSTlocal c then sub1h c else c

/-- Model of `dt_utc.astimezone(ZoneInfo("Europe/London"))` (drops the zone
tag; returns the London wall-clock reading). -/
def utcToLondon (c : Civil) : Civil :=
  if isBSTutc c then add1h c else c

/-- Wall-clock times in the spring-forward gap (last Sunday of March,
[01:00, 02:00) local): these do not exist on the wall clock. -/
def inSpringGap (c : Civil) : Bool :=
  springK c.year - 60 ≤ yearKey c && yearKey c < springK c.year

theorem daysBefore_succ (lp : Bool) (m : Nat) (h : 1 ≤ m) :
    daysBefore lp (m + 1) = daysBefore lp m + monthLen lp m := by
  match m, h with
  | (k + 1), _ => rfl

theorem daysBefore_three (lp : Bool) : daysBefore lp 3 = if lp then 60 else 59 := by
  cases lp <;> rfl

theorem daysBefore_thirteen (lp : Bool) :
    daysBefore lp 13 = if lp then 366 else 365 := by
  cases lp <;> rfl

theorem monthLen_le_31 (lp : Bool) (m : Nat) : monthLen lp m ≤ 31 := by
  unfold monthLen
  split <;> first
  | decide
  | (cases lp <;> decide)

theorem monthLen_pos (lp : Bool) (m : Nat) (h1 : 1 ≤ m) (h2 : m ≤ 12) :
    1 ≤ monthLen lp m := by
  interval_cases m <;> (cases lp <;> decide)

theorem isLeap_iff (y : Nat) :
    isLeap y = true ↔ (y % 4 = 0 ∧ (y % 100 ≠ 0 ∨ y % 400 = 0)) := by
  simp [isLeap]

theorem daysBeforeYear_succ (y : Nat) :
    daysBeforeYear (y + 1) = daysBeforeYear y + (if isLeap y then 366 else 365) := by
  unfold daysBeforeYear leapsBefore
  split_ifs with hl
  · have := (isLeap_iff y).mp hl
    omega
  · have : ¬ (y % 4 = 0 ∧ (y % 100 ≠ 0 ∨ y % 400 = 0)) :=
      fun hc => hl ((isLeap_iff y).mpr hc)
    omega

theorem absMin_eq (c : Civil) :
    absMin c = daysBeforeYear c.year * 1440 + yearKey c := by
  unfold absMin yearKey; ring

theorem dow_lt_7 (y m d : Nat) : dow y m d < 7 := by
  unfold dow
  exact Nat.mod_lt _ (by omega)

theorem springDay_bounds (y : Nat) : 25 ≤ springDay y ∧ springDay y ≤ 31 := by
  have := dow_lt_7 y 3 31
  unfold springDay; omega

theorem autumnDay_bounds (y : Nat) : 25 ≤ autumnDay y ∧ autumnDay y ≤ 31 := by
  have := dow_lt_7 y 10 31
  unfold autumnDay; omega

theorem springK_bounds (y : Nat) :
    84 * 1440 + 120 ≤ springK y ∧ springK y ≤ 91 * 1440 + 120 := by
  have hd := springDay_bounds y
  have h3 := daysBefore_three (isLeap y)
  unfold springK
  cases h : isLeap y <;> simp [h] at h3 <;> omega

theorem autumnK_ge (y : Nat) : 120 ≤ autumnK y := by
  unfold autumnK; omega

theorem valid_add1h {c : Civil} (h : c.Valid) : (add1h c).Valid := by
  obtain ⟨hy, hm1, hm2, hd1, hd2, hh, hmin⟩ := h
  unfold add1h
  split_ifs with h1 h2 h3
  · exact ⟨hy, hm1, hm2, hd1, hd2, by show c.hour + 1 ≤ 23; omega, hmin⟩
  · exact ⟨hy, hm1, hm2, by show 1 ≤ c.day + 1; omega,
      by show c.day + 1 ≤ monthLen (isLeap c.year) c.month; omega,
      by show (0 : Nat) ≤ 23; omega, hmin⟩
  · exact ⟨hy, by show 1 ≤ c.month + 1; omega, by show c.month + 1 ≤ 12; omega,
      le_refl 1,
      by show 1 ≤ monthLen (isLeap c.year) (c.month + 1)
         exact monthLen_pos _ _ (by omega) (by omega),
      by show (0 : Nat) ≤ 23; omega, hmin⟩
  · exact ⟨by show 1 ≤ c.year + 1; omega, le_refl 1, by show (1 : Nat) ≤ 12; omega,
      le_refl 1,
      by show (1 : Nat) ≤ monthLen (isLeap (c.year + 1)) 1
         cases isLeap (c.year + 1) <;> decide,
      by show (0 : Nat) ≤ 23; omega, hmin⟩

theorem absMin_add1h {c : Civil} (h : c.Valid) :
    absMin (add1h c) = absMin c + 60 := by
  obtain ⟨y, mo, d, hr, mi⟩ := c
  simp only [Civil.Valid] at h
  obtain ⟨hy, hm1, hm2, hd1, hd2, hh, hmin⟩ := h
  simp only [add1h]
  split_ifs with h1 h2 h3
  · simp [absMin, dayOfYear]; omega
  · simp [absMin, dayOfYear]; omega
  · have hds := daysBefore_succ (isLeap y) mo (by exact hm1)
    simp [absMin, dayOfYear, hds]; omega
  · simp only at h1 h2 h3 hd2 ⊢
    have hm12 : mo = 12 := by omega
    subst hm12
    have hds : daysBefore (isLeap y) 13 =
        daysBefore (isLeap y) 12 + monthLen (isLeap y) 12 :=
      daysBefore_succ (isLeap y) 12 (by omega)
    have h13 := daysBefore_thirteen (isLeap y)
    have hsy := daysBeforeYear_succ y
    have hd0 : daysBefore (isLeap (y + 1)) 1 = 0 := by
      cases isLeap (y + 1) <;> rfl
    simp only [absMin, dayOfYear, hd0]
    cases hL : isLeap y <;> rw [hL] at hds h13 hsy hd2 h2 <;>
      simp at h13 hsy <;> omega

theorem add1h_sub1h {c : Civil} (h : c.Valid) : add1h (sub1h c) = c := by
  obtain ⟨y, mo, d, hr, mi⟩ := c
  simp only [Civil.Valid] at h
  obtain ⟨hy, hm1, hm2, hd1, hd2, hh, hmin⟩ := h
  have h12 : ∀ b : Bool, monthLen b 12 = 31 := fun b => by cases b <;> rfl
  have hpos : ∀ b : Bool, ∀ m, 1 ≤ m → m ≤ 12 → 1 ≤ monthLen b m :=
    fun b m u v => monthLen_pos b m u v
  simp only [sub1h]
  split_ifs with h1 h2 h3 <;>
    simp only [add1h, h12] <;>
    split_ifs <;>
    simp_all [Civil.mk.injEq] <;>
    omega

theorem sub1h_year {c : Civil} (h3 : 3 ≤ c.month) : (sub1h c).year = c.year := by
  obtain ⟨y, mo, d, hr, mi⟩ := c
  simp only at h3
  simp only [sub1h]
  split_ifs <;> simp <;> omega

theorem absMin_sub1h {c : Civil} (h : c.Valid) (h3 : 3 ≤ c.month) :
    absMin c = absMin (sub1h c) + 60 := by
  obtain ⟨y, mo, d, hr, mi⟩ := c
  simp only [Civil.Valid] at h
  obtain ⟨hy, hm1, hm2, hd1, hd2, hh, hmin⟩ := h
  simp only at h3
  simp only [sub1h]
  split_ifs with h1 h2 h4
  · simp [absMin, dayOfYear]; omega
  · simp [absMin, dayOfYear]; omega
  · have hds := daysBefore_succ (isLeap y) (mo - 1) (by omega)
    have hme : mo - 1 + 1 = mo := by omega
    rw [hme] at hds
    simp [absMin, dayOfYear, hds]
    omega
  · omega

theorem month_ge_3_of_yearKey {c : Civil} (h : c.Valid)
    (hk : 84 * 1440 ≤ yearKey c) : 3 ≤ c.month := by
  obtain ⟨hy, hm1, hm2, hd1, hd2, hh, hmin⟩ := h
  by_contra hlt
  have hm : c.month = 1 ∨ c.month = 2 := by omega
  have hdoy : dayOfYear c ≤ 60 := by
    rcases hm with hm | hm
    · have : monthLen (isLeap c.year) 1 = 31 := by cases isLeap c.year <;> rfl
      unfold dayOfYear
      rw [hm] at hd2 ⊢
      simp [daysBefore]
      omega
    · have hml : monthLen (isLeap c.year) 2 ≤ 29 := by cases isLeap c.year <;> decide
      have hdb : daysBefore (isLeap c.year) 2 = 31 := by cases isLeap c.year <;> rfl
      unfold dayOfYear
      rw [hm] at hd2 ⊢
      omega
  unfold yearKey at hk
  omega

/-- Round-trip of the zone conversions, away from the spring-forward gap:
converting a wall-clock London time to UTC and back reproduces it. -/
theorem london_round_trip {c : Civil} (h : c.Valid)
    (hg : inSpringGap c = false) : utcToLondon (londonToUtc c) = c := by
  unfold londonToUtc
  by_cases hb : isBSTlocal c = true
  · rw [hb]
    simp only [if_true]
    have hbp : springK c.year ≤ yearKey c ∧ yearKey c < autumnK c.year := by
      unfold isBSTlocal at hb
      simpa using hb
    have hsb := springK_bounds c.year
    have h3 : 3 ≤ c.month := month_ge_3_of_yearKey h (by omega)
    have hyr : (sub1h c).year = c.year := sub1h_year h3
    have habs : absMin c = absMin (sub1h c) + 60 := absMin_sub1h h h3
    have he1 := absMin_eq c
    have he2 := absMin_eq (sub1h c)
    rw [hyr] at he2
    have hk : yearKey (sub1h c) + 60 = yearKey c := by omega
    have hbst : isBSTutc (sub1h c) = true := by
      unfold isBSTutc
      rw [hyr]
      simp only [Bool.and_eq_true, decide_eq_true_eq]
      omega
    unfold utcToLondon
    rw [hbst]
    simp only [if_true]
    exact add1h_sub1h h
  · rw [if_neg hb]
    have hbp : ¬ (springK c.year ≤ yearKey c ∧ yearKey c < autumnK c.year) := by
      intro hcon
      exact hb (by unfold isBSTlocal; simp [hcon.1, hcon.2])
    have hgp : ¬ (springK c.year - 60 ≤ yearKey c ∧ yearKey c < springK c.year) := by
      intro hcon
      rw [show inSpringGap c = (decide (springK c.year - 60 ≤ yearKey c) &&
        decide (yearKey c < springK c.year)) from rfl] at hg
      simp [hcon.1, hcon.2] at hg
    have hak := autumnK_ge c.year
    have hbst : isBSTutc c = false := by
      unfold isBSTutc
      simp only [Bool.and_eq_false_iff, decide_eq_false_iff_not]
      omega
    unfold utcToLondon
    rw [hbst]
    simp

/-! ### Digit rendering, modelling `strftime` fields and `str` of ints. -/

/-- Single decimal digit as a character. -/
def digitChar10 : Nat → Char
  | 0 => '0'
  | 1 => '1'
  | 2 => '2'
  | 3 => '3'
  | 4 => '4'
  | 5 => '5'
  | 6 => '6'
  | 7 => '7'
  | 8 => '8'
  | 9 => '9'
  | _ => '*'

/-- Fuel-driven decimal rendering (most significant digit first). -/
def natDecCore : Nat → Nat → List Char
  | 0, _ => []
  | fuel + 1, n =>
    if n = 0 then [] else natDecCore fuel (n / 10) ++ [digitChar10 (n % 10)]

/-- Decimal digits of `n`, most significant first (empty for 0). -/
def natDecL (n : Nat) : List Char := natDecCore n n

theorem natDecCore_eq (fuel n : Nat) (h : n ≤ fuel) :
    natDecCore fuel n = ((Nat.digits 10 n).reverse).map digitChar10 := by
  induction fuel generalizing n with
  | zero =>
    have : n = 0 := by omega
    subst this
    simp [natDecCore]
  | succ fuel ih =>
    by_cases hn : n = 0
    · subst hn; simp [natDecCore]
    · have hd := Nat.digits_def' (b := 10) (by omega) (Nat.pos_of_ne_zero hn)
      have hdiv : n / 10 ≤ fuel := by
        have hlt : n / 10 < n := Nat.div_lt_self (Nat.pos_of_ne_zero hn) (by norm_num)
        omega
      simp [natDecCore, hn, hd, ih (n / 10) hdiv]

theorem natDecL_eq (n : Nat) :
    natDecL n = ((Nat.digits 10 n).reverse).map digitChar10 :=
  natDecCore_eq n n le_rfl

def natDecS (n : Nat) : String := ⟨natDecL n⟩

/-- Python `str` of a natural number (`str(0) = "0"`). -/
def natStr (n : Nat) : String := if n = 0 then "0" else natDecS n

/-- Python `str` of an int. -/
def intStr : Int → String
  | .ofNat n => natStr n
  | .negSucc n => "-" ++ natStr (n + 1)

/-- Two-digit zero-padded field (`%m`, `%d`, `%H`, `%M`); all call sites pass
values below 100. -/
def pad2L (n : Nat) : List Char := [digitChar10 (n / 10 % 10), digitChar10 (n % 10)]

def pad2S (n : Nat) : String := ⟨pad2L n⟩

/-- Model of `strftime("%Y%m%dT%H%M%SZ")` on a zero-second datetime. -/
def tsCompactL (c : Civil) : List Char :=
  natDecL c.year ++ pad2L c.month ++ pad2L c.day ++ 'T' ::
    (pad2L c.hour ++ pad2L c.minute ++ ['0', '0', 'Z'])

def tsCompactS (c : Civil) : String := ⟨tsCompactL c⟩

/-- Model of `strftime("%Y-%m-%dT%H:%M:%SZ")` on a zero-second datetime. -/
def koFmtS (c : Civil) : String :=
  ⟨natDecL c.year ++ '-' :: pad2L c.month ++ '-' :: pad2L c.day ++ 'T' ::
    pad2L c.hour ++ ':' :: pad2L c.minute ++ [':', '0', '0', 'Z']⟩

/-- Model of `strftime("%Y%m%d")`. -/
def ymdL (c : Civil) : List Char := natDecL c.year ++ pad2L c.month ++ pad2L c.day

/-! ### Python string helpers used by the script. -/

def pyLowerL (l : List Char) : List Char := l.map Char.toLower

def pyUpperL (l : List Char) : List Char := l.map Char.toUpper

/-- Python `\s` / `str.strip()` whitespace (ASCII portion). -/
def isPySpace (c : Char) : Bool :=
  c = ' ' || c = '\t' || c = '\n' || c = '\r' || c = '\x0b' || c = '\x0c'

def pyStripL (l : List Char) : List Char :=
  ((l.dropWhile isPySpace).reverse.dropWhile isPySpace).reverse

def pyStripS (s : String) : String := ⟨pyStripL s.data⟩

/-- Python `needle in hay` on strings. -/
def containsSub : List Char → List Char → Bool
  | hay, needle =>
    if needle.isPrefixOf hay then true
    else
      match hay with
      | [] => false
      | _ :: t => containsSub t needle

theorem dropWhile_length_le (p : Char → Bool) (l : List Char) :
    (l.dropWhile p).length ≤ l.length :=
  (List.dropWhile_sublist p).length_le

/-- Characters kept by `slug` (the string is lower-cased first). -/
def isSlugKeep (c : Char) : Bool :=
  ('a' ≤ c && c ≤ 'z') || ('0' ≤ c && c ≤ '9')

/-- Model of `re.sub(r"[^a-z0-9]+", "-", s)`: every maximal run of
non-alphanumeric characters becomes a single hyphen.  `inRun` records
whether the previous character belonged to a non-alphanumeric run. -/
def collapseNonAlnumAux (inRun : Bool) : List Char → List Char
  | [] => []
  | c :: t =>
    if isSlugKeep c then c :: collapseNonAlnumAux false t
    else if inRun then collapseNonAlnumAux true t
    else '-' :: collapseNonAlnumAux true t

def collapseNonAlnum (l : List Char) : List Char := collapseNonAlnumAux false l

def stripDashes (l : List Char) : List Char :=
  ((l.dropWhile (· == '-')).reverse.dropWhile (· == '-')).reverse

def slugL (l : List Char) : List Char := stripDashes (collapseNonAlnum (pyLowerL l))

/-- `slug` from the script: lower-case, collapse non-alphanumeric runs to a
hyphen, strip leading/trailing hyphens. -/
def slug (s : String) : String := ⟨slugL s.data⟩

/-- Regex `\w` (word character, ASCII). -/
def isWordChar (c : Char) : Bool := c.isAlphanum || c = '_'

/-- True when the next position is a word boundary on the right. -/
def nextNonWord : List Char → Bool
  | [] => true
  | c :: _ => !isWordChar c

/-- Model of `re.sub(r"\b(fc|afc)\b", "", s)`: scans left to right carrying
whether the previous character was a word character (for the left `\b`);
the right `\b` is checked against the rest of the string.  A replaced match
leaves the scanner just past it, with a word character on its left. -/
def stripClubWords : Bool → List Char → List Char
  | _, [] => []
  | prevW, 'f' :: 'c' :: t =>
    if !prevW && nextNonWord t then stripClubWords true t
    else 'f' :: stripClubWords true ('c' :: t)
  | prevW, 'a' :: 'f' :: 'c' :: t =>
    if !prevW && nextNonWord t then stripClubWords true t
    else 'a' :: stripClubWords true ('f' :: 'c' :: t)
  | prevW, c :: t => c :: stripClubWords (isWordChar c) t

/-- Model of `str.replace("u18s", "u18")`. -/
def replaceU18s : List Char → List Char
  | [] => []
  | 'u' :: '1' :: '8' :: 's' :: t => 'u' :: '1' :: '8' :: replaceU18s t
  | c :: t => c :: replaceU18s t

/-- Model of `re.sub(r"\s+", " ", s)`: each maximal whitespace run becomes
a single space; `inRun` records whether the previous character was
whitespace. -/
def collapseWsAux (inRun : Bool) : List Char → List Char
  | [] => []
  | c :: t =>
    if isPySpace c then
      if inRun then collapseWsAux true t else ' ' :: collapseWsAux true t
    else c :: collapseWsAux false t

def collapseWs (l : List Char) : List Char := collapseWsAux false l

/-- `clean_team` from the script. -/
def clean_team (s : String) : String :=
  ⟨pyStripL (collapseWs (replaceU18s (stripClubWords false (pyLowerL s.data))))⟩

/-- `esc` from the script: escape ICS special characters. -/
def escL : List Char → List Char
  | [] => []
  | c :: t =>
    (if c = '\\' then ['\\', '\\']
     else if c = ',' then ['\\', ',']
     else if c = ';' then ['\\', ';']
     else if c = '\n' then ['\\', 'n']
     else [c]) ++ escL t

def esc (s : String) : String := ⟨escL s.data⟩

/-- `tg_escape` from the script. -/
def tgEscL : List Char → List Char
  | [] => []
  | c :: t =>
    (if c = '&' then "&amp;".data
     else if c = '<' then "&lt;".data
     else if c = '>' then "&gt;".data
     else [c]) ++ tgEscL t

def tg_escape (s : String) : String := ⟨tgEscL s.data⟩

/-- Python `sep.join(parts)`. -/
def joinSep (sep : String) : List String → String
  | [] => ""
  | [x] => x
  | x :: y :: t => x ++ sep ++ joinSep sep (y :: t)

/-! ### Model of `datetime.strptime` for the formats the script uses.
Numeric fields follow CPython's `_strptime` regexes: one- or two-digit
values with the two-digit alternative tried first, `%y`/`%Y` exactly
two/four digits, format whitespace matching one or more whitespace
characters, the whole string consumed, and the `datetime` constructor
validating the day against the month length afterwards. -/

def dval (c : Char) : Nat := c.toNat - 48

def num2 : List Char → Option (Nat × List Char)
  | a :: b :: r => if a.isDigit && b.isDigit then some (10 * dval a + dval b, r) else none
  | _ => none

def num1 : List Char → Option (Nat × List Char)
  | a :: r => if a.isDigit then some (dval a, r) else none
  | _ => none

/-- A numeric field with a two-digit alternative (accepted values `ok2`)
tried before a one-digit alternative (accepted values `ok1`), with full
backtracking into the continuation `k`. -/
def fieldAlt (ok2 ok1 : Nat → Bool) (k : Nat → List Char → Option Civil)
    (s : List Char) : Option Civil :=
  match num2 s with
  | some (v, r) =>
    match (if ok2 v then k v r else none) with
    | some c => some c
    | none =>
      match num1 s with
      | some (w, r1) => if ok1 w then k w r1 else none
      | none => none
  | none =>
    match num1 s with
    | some (w, r1) => if ok1 w then k w r1 else none
    | none => none

/-- `%y`: exactly two digits, mapped to 1969..2068. -/
def year2 (s : List Char) : Option (Nat × List Char) :=
  match num2 s with
  | some (v, r) => some ((if v ≤ 68 then 2000 + v else 1900 + v), r)
  | none => none

/-- `%Y`: exactly four digits. -/
def year4 : List Char → Option (Nat × List Char)
  | a :: b :: c :: d :: r =>
    if a.isDigit && b.isDigit && c.isDigit && d.isDigit then
      some (1000 * dval a + 100 * dval b + 10 * dval c + dval d, r)
    else none
  | _ => none

def litCh (ch : Char) : List Char → Option (List Char)
  | a :: r => if a = ch then some r else none
  | [] => none

/-- Format whitespace: matches `\s+`. -/
def ws1 (s : List Char) : Option (List Char) :=
  let t := s.dropWhile isPySpace
  if t.length < s.length then some t else none

/-- The `datetime(...)` constructor check after a successful regex match. -/
def mkC (y m d h mi : Nat) : Option Civil :=
  if 1 ≤ y ∧ d ≤ monthLen (isLeap y) m then some ⟨y, m, d, h, mi⟩ else none

def dayOk2 (v : Nat) : Bool := decide (1 ≤ v ∧ v ≤ 31)
def dayOk1 (v : Nat) : Bool := decide (1 ≤ v ∧ v ≤ 9)
def monOk2 (v : Nat) : Bool := decide (1 ≤ v ∧ v ≤ 12)
def monOk1 (v : Nat) : Bool := decide (1 ≤ v ∧ v ≤ 9)
def hourOk2 (v : Nat) : Bool := decide (v ≤ 23)
def minOk2 (v : Nat) : Bool := decide (v ≤ 59)
def anyOk1 (_ : Nat) : Bool := true

/-- `strptime(s, "%d/%m/%y %H:%M")` (or `%Y` when `y4` is set). -/
def strpDT (y4 : Bool) (s : List Char) : Option Civil :=
  fieldAlt dayOk2 dayOk1
    (fun d r1 =>
      (litCh '/' r1).bind fun r2 =>
      fieldAlt monOk2 monOk1
        (fun m r3 =>
          (litCh '/' r3).bind fun r4 =>
          ((if y4 then year4 r4 else year2 r4)).bind fun vr =>
          (ws1 vr.2).bind fun r6 =>
          fieldAlt hourOk2 anyOk1
            (fun h r7 =>
              (litCh ':' r7).bind fun r8 =>
              fieldAlt minOk2 anyOk1
                (fun mi r9 => if r9 = [] then mkC vr.1 m d h mi else none) r8) r6) r2) s

/-- `strptime(s, "%d/%m/%y")` (or `%Y` when `y4` is set). -/
def strpD (y4 : Bool) (s : List Char) : Option Civil :=
  fieldAlt dayOk2 dayOk1
    (fun d r1 =>
      (litCh '/' r1).bind fun r2 =>
      fieldAlt monOk2 monOk1
        (fun m r3 =>
          (litCh '/' r3).bind fun r4 =>
          ((if y4 then year4 r4 else year2 r4)).bind fun vr =>
          if vr.2 = [] then mkC vr.1 m d 0 0 else none) r2) s

/-- `parse_fixture_dt_local_to_utc` from the script: reject the empty
string, try the two accepted formats in order, then convert the
Europe/London wall clock to UTC.  `none` models the raised `ValueError`. -/
def parse_fixture_dt_local_to_utc (s : String) : Option Civil :=
  if s = "" then none
  else
    match strpDT false s.data with
    | some c => some (londonToUtc c)
    | none =>
      match strpDT true s.data with
      | some c => some (londonToUtc c)
      | none => none

/-- `strptime(s, "%Y-%m-%dT%H:%M:%SZ")`, used when rendering removed
fixtures from a stored snapshot; the parsed seconds are dropped (they are
not displayed). -/
def strpKo (s : List Char) : Option Civil :=
  (year4 s).bind fun vr =>
  (litCh '-' vr.2).bind fun r2 =>
  fieldAlt monOk2 monOk1
    (fun m r3 =>
      (litCh '-' r3).bind fun r4 =>
      fieldAlt dayOk2 dayOk1
        (fun d r5 =>
          (litCh 'T' r5).bind fun r6 =>
          fieldAlt hourOk2 anyOk1
            (fun h r7 =>
              (litCh ':' r7).bind fun r8 =>
              fieldAlt minOk2 anyOk1
                (fun mi r9 =>
                  (litCh ':' r9).bind fun r10 =>
                  fieldAlt minOk2 anyOk1
                    (fun _sec r11 =>
                      (litCh 'Z' r11).bind fun r12 =>
                      if r12 = [] then mkC vr.1 m d h mi else none) r10) r8) r6) r4) r2

/-! ### JSON leaves and Python dict operations. -/

/-- JSON leaf values as loaded from the feeds (`None`/number/string).  The
feed records are flat, so nested containers are not modelled. -/
inductive JVal where
  | jnull : JVal
  | jnum : Int → JVal
  | jstr : String → JVal
deriving DecidableEq

/-- Python truthiness of a leaf. -/
def truthy : JVal → Bool
  | .jnull => false
  | .jnum n => n != 0
  | .jstr s => s != ""

abbrev Dict := List (String × JVal)

/-- `d.get(k)`: Python `None` (= `jnull`) for a missing key; a stored JSON
`null` also loads as `None`. -/
def getJ (d : Dict) (k : String) : JVal :=
  match d with
  | [] => .jnull
  | (k', v) :: t => if k' = k then v else getJ t k

/-- Python `a or b`. -/
def pyOr (a b : JVal) : JVal := if truthy a then a else b

/-- Python `str()` of a leaf. -/
def pyStrJ : JVal → String
  | .jnull => "None"
  | .jnum n => intStr n
  | .jstr s => s

/-- Dict assignment `m[k] = v` (replace in place or append). -/
def aset {α : Type} (k : String) (v : α) : List (String × α) → List (String × α)
  | [] => [(k, v)]
  | (k', v') :: t => if k' = k then (k, v) :: t else (k', v') :: aset k v t

/-- Dict lookup returning `Option`. -/
def alookup {α : Type} (k : String) : List (String × α) → Option α
  | [] => none
  | (k', v) :: t => if k' = k then some v else alookup k t

/-- `(fx.get(k1) or fx.get(k2) or "").strip()`.  `none` models the
`AttributeError` raised by `.strip()` on a truthy non-string value, which
makes `main` skip the record. -/
def strField2 (fx : Dict) (k1 k2 : String) : Option String :=
  match pyOr (getJ fx k1) (getJ fx k2) with
  | .jstr s => some (pyStripS s)
  | .jnull => some ""
  | .jnum n => if n = 0 then some "" else none

/-- `(fx.get(k1) or "").strip()`. -/
def strField1 (fx : Dict) (k1 : String) : Option String :=
  match getJ fx k1 with
  | .jstr s => some (pyStripS s)
  | .jnull => some ""
  | .jnum n => if n = 0 then some "" else none

/-- `fx.get("fixtureDateTime") or fx.get("date") or ""` (no strip). -/
def dateField (fx : Dict) : JVal :=
  let w := pyOr (getJ fx "fixtureDateTime") (getJ fx "date")
  if truthy w then w else .jstr ""

/-- Team/date fields of a result record; a truthy number is rendered with
`str` (for the date this matches the f-string fallback in
`key_from_date_and_teams`; a truthy non-string team name would crash the
unguarded result loop and is not modelled). -/
def resStr2 (r : Dict) (k1 k2 : String) : String :=
  match pyOr (getJ r k1) (getJ r k2) with
  | .jstr s => s
  | .jnull => ""
  | .jnum n => if n = 0 then "" else intStr n

/-- `r.get("resultDateTime") or r.get("fixtureDateTime") or r.get("date") or ""`. -/
def resDateStr (r : Dict) : String :=
  match pyOr (pyOr (getJ r "resultDateTime") (getJ r "fixtureDateTime")) (getJ r "date") with
  | .jstr s => s
  | .jnull => ""
  | .jnum n => if n = 0 then "" else intStr n

/-- Key built from a successfully parsed date. -/
def keyWithDate (d : Civil) (home away : String) : String :=
  (⟨ymdL d⟩ : String) ++ "|" ++ clean_team home ++ "|" ++ clean_team away

/-- `key_from_date_and_teams` from the script: try the four date formats in
order, fall back to the raw string. -/
def key_from_date_and_teams (date_str home away : String) : String :=
  match strpDT false date_str.data with
  | some d => keyWithDate d home away
  | none =>
    match strpDT true date_str.data with
    | some d => keyWithDate d home away
    | none =>
      match strpD false date_str.data with
      | some d => keyWithDate d home away
      | none =>
        match strpD true date_str.data with
        | some d => keyWithDate d home away
        | none => date_str ++ "|" ++ clean_team home ++ "|" ++ clean_team away

/-- The value stored in `res_map`: `{"hs": ..., "as": ...}`. -/
structure ResEntry where
  hs : JVal
  as_ : JVal
deriving DecidableEq

def hsVal (r : Dict) : JVal := pyOr (getJ r "homeScore") (getJ r "homeGoals")

def asVal (r : Dict) : JVal := pyOr (getJ r "awayScore") (getJ r "awayGoals")

/-- The result-lookup loop of `main` (lines 170-177). -/
def buildResMap (results : List Dict) : List (String × ResEntry) :=
  results.foldl
    (fun m r =>
      aset (key_from_date_and_teams (resDateStr r)
              (resStr2 r "homeTeam" "home") (resStr2 r "awayTeam" "away"))
        ⟨hsVal r, asVal r⟩ m) []

/-! ### Fingerprint: `json.dumps({"fx": fx, "res": r}, sort_keys=True,
default=str)` hashed. -/

def hexDigit (n : Nat) : Char := if n < 10 then digitChar10 n else Char.ofNat (87 + n)

/-- JSON string escaping with `ensure_ascii` (BMP code points). -/
def jsonEscCh (c : Char) : List Char :=
  if c = '"' then ['\\', '"']
  else if c = '\\' then ['\\', '\\']
  else if c = '\n' then ['\\', 'n']
  else if c = '\r' then ['\\', 'r']
  else if c = '\t' then ['\\', 't']
  else if c.toNat < 32 || c.toNat > 126 then
    '\\' :: 'u' :: [hexDigit (c.toNat / 4096 % 16), hexDigit (c.toNat / 256 % 16),
      hexDigit (c.toNat / 16 % 16), hexDigit (c.toNat % 16)]
  else [c]

def jsonStrL (s : String) : List Char := '"' :: (s.data.map jsonEscCh).join ++ ['"']

def dumpJV : JVal → List Char
  | .jnull => "null".data
  | .jnum n => (intStr n).data
  | .jstr s => jsonStrL s

/-- Code-point lexicographic order on strings (Python `<` on `str`). -/
def lexLe : List Char → List Char → Bool
  | [], _ => true
  | _ :: _, [] => false
  | a :: s, b :: t =>
    if a.toNat < b.toNat then true
    else if b.toNat < a.toNat then false
    else lexLe s t

def strLe (a b : String) : Bool := lexLe a.data b.data

/-- Insert `x` before the first element `y` with `le x y` (ties go after
existing elements, matching a stable sort). -/
def insLe {α : Type} (le : α → α → Bool) (x : α) : List α → List α
  | [] => [x]
  | y :: t => if le x y then x :: y :: t else y :: insLe le x t

def pairLe {α : Type} (p q : String × α) : Bool := strLe p.1 q.1

def insPairBy {α : Type} (p : String × α) (l : List (String × α)) : List (String × α) :=
  insLe pairLe p l

/-- `sorted(d.items())` by key (dict keys are distinct, so ties are moot). -/
def sortPairs {α : Type} : List (String × α) → List (String × α)
  | [] => []
  | p :: t => insPairBy p (sortPairs t)

def dumpPairsCore : List (String × JVal) → List Char
  | [] => []
  | [(k, v)] => jsonStrL k ++ ':' :: ' ' :: dumpJV v
  | (k, v) :: q :: t => jsonStrL k ++ ':' :: ' ' :: dumpJV v ++ ',' :: ' ' :: dumpPairsCore (q :: t)

/-- `json.dumps` of a flat dict with `sort_keys=True`. -/
def dumpPairsL (l : List (String × JVal)) : List Char :=
  '{' :: dumpPairsCore (sortPairs l) ++ ['}']

def dumpResL : Option ResEntry → List Char
  | none => "null".data
  | some e => dumpPairsL [("hs", e.hs), ("as", e.as_)]

/-- Serialization of `{"fx": fx, "res": r}` with keys sorted at every
level (`"fx" < "res"`). -/
def dumpTopL (fx : Dict) (r : Option ResEntry) : List Char :=
  '{' :: (jsonStrL "fx" ++ ':' :: ' ' :: dumpPairsL fx ++
    ',' :: ' ' :: jsonStrL "res" ++ ':' :: ' ' :: dumpResL r) ++ ['}']

/-- Modelled from the spec: `hashlib.sha256(...).hexdigest()` is a library
primitive outside the repository; it is modelled as a deterministic 64-bit
digest of the serialized bytes, rendered in hex.  The development relies
only on the digest being a pure function of the serialized string. -/
def digestHex (l : List Char) : String :=
  let h := l.foldl (fun h c => (h * 1099511628211 + c.toNat) % (2 ^ 64)) 14695981039346656037
  ⟨(List.range 16).map (fun i => hexDigit (h / 16 ^ (15 - i) % 16))⟩

/-- The per-fixture fingerprint (line 268 of the script). -/
def fingerprint (fx : Dict) (r : Option ResEntry) : String := digestHex (dumpTopL fx r)

/-! ### The reconciliation loop of `main`. -/

def TEAM_NAME : String := "Poole Town FC Wessex U18 Colts"

def LINKS : List String :=
  ["PTYFC Res/Fix: https://tinyurl.com/3rcea6d6",
   "League Table: https://tinyurl.com/2p3zzska",
   "League Fixtures: https://tinyurl.com/bdhdmzcn",
   "League Results: https://tinyurl.com/bs6ppntx"]

/-- `TEAM_NAME.lower() in home.lower()`. -/
def usHome (home : String) : Bool :=
  containsSub (pyLowerL home.data) (pyLowerL TEAM_NAME.data)

/-- The opponent as used in `make_uid`: `(away if us_home else home) or
"opponent"`. -/
def oppOf (home away : String) : String :=
  let o := if usHome home then away else home
  if o = "" then "opponent" else o

/-- The opponent as used for the summary (line 220; no placeholder). -/
def oppPlain (home away : String) : String :=
  if usHome home then away else home

/-- `make_uid` from the script. -/
def make_uid (start : Civil) (home away : String) : String :=
  ⟨"ptfc-u18-".data ++ tsCompactL start ++
    '-' :: (if usHome home then 'h' else 'a') :: '-' ::
    slugL (oppOf home away).data ++ "@poole-town".data⟩

def dowAbbr : Nat → String
  | 0 => "Sun"
  | 1 => "Mon"
  | 2 => "Tue"
  | 3 => "Wed"
  | 4 => "Thu"
  | 5 => "Fri"
  | 6 => "Sat"
  | _ => "?"

def monAbbr : Nat → String
  | 1 => "Jan"
  | 2 => "Feb"
  | 3 => "Mar"
  | 4 => "Apr"
  | 5 => "May"
  | 6 => "Jun"
  | 7 => "Jul"
  | 8 => "Aug"
  | 9 => "Sep"
  | 10 => "Oct"
  | 11 => "Nov"
  | 12 => "Dec"
  | _ => "?"

/-- `fmt_local` from the script: `%a %d %b %Y %H:%M` in Europe/London. -/
def fmt_local (c : Civil) : String :=
  let l := utcToLondon c
  dowAbbr (dow l.year l.month l.day) ++ " " ++ pad2S l.day ++ " " ++
    monAbbr l.month ++ " " ++ natStr l.year ++ " " ++ pad2S l.hour ++ ":" ++ pad2S l.minute

/-- The change-detection snapshot (lines 241-246). -/
structure Snap where
  ko : String
  home : String
  away : String
  venue : String
  comp : String
  hs : Option String
  as_ : Option String
deriving DecidableEq

/-- A persisted state entry `{"seq": ..., "fp": ..., "snapshot": ...}`. -/
structure Entry where
  seq : Nat
  fp : String
  snapshot : Snap
deriving DecidableEq

abbrev StateMap := List (String × Entry)

/-- The delta list of the change detector (lines 252-263). -/
def computeDeltas (prev snap : Snap) : List String :=
  (if prev.ko ≠ snap.ko then ["time"] else []) ++
  (if prev.venue ≠ snap.venue then ["venue"] else []) ++
  (if prev.comp ≠ snap.comp then ["competition"] else []) ++
  (if (prev.hs, prev.as_) ≠ (snap.hs, snap.as_) then
    [if snap.hs.isSome && snap.as_.isSome then
       "score " ++ snap.home ++ " " ++ snap.hs.getD "" ++ "–" ++
         snap.as_.getD "" ++ " " ++ snap.away
     else "score cleared"]
   else [])

def renderAdded (start : Civil) (home away venue : String) : String :=
  "• " ++ fmt_local start ++ " — " ++ home ++ " vs " ++ away ++ " (" ++ venue ++ ")"

def renderUpdated (start : Civil) (home away : String) (deltas : List String) : String :=
  "• " ++ fmt_local start ++ " — " ++ home ++ " vs " ++ away ++
    " (" ++ joinSep ", " deltas ++ ")"

/-- The SEQUENCE update rule (lines 269-271): bump exactly when a stored
fingerprint exists and differs. -/
def seqStep (old : Option Entry) (fp : String) : Nat :=
  match old with
  | none => 0
  | some e => if e.fp ≠ fp then e.seq + 1 else e.seq

/-- Fields of a fixture record that survived extraction and parsing. -/
structure FxParsed where
  date : String
  home : String
  away : String
  venue : String
  comp : String
  start : Civil
deriving DecidableEq

/-- Lines 208-216 of the script: extract the fields and parse the kickoff;
`none` models any exception (the record is skipped before any state is
touched). -/
def extractFx (fx : Dict) : Option FxParsed :=
  match dateField fx with
  | .jstr ds =>
    match strField1 fx "homeTeam", strField1 fx "awayTeam",
        strField2 fx "location" "ground", strField1 fx "competition" with
    | some home, some away, some venue, some comp =>
      match parse_fixture_dt_local_to_utc ds with
      | some start => some ⟨ds, home, away, venue, comp, start⟩
      | none => none
    | _, _, _, _ => none
  | _ => none

/-- `str(r["hs"]).strip() if r and r.get("hs") is not None else None`. -/
def hsOf : Option ResEntry → Option String
  | some e => if e.hs ≠ .jnull then some (pyStripS (pyStrJ e.hs)) else none
  | none => none

def asOf : Option ResEntry → Option String
  | some e => if e.as_ ≠ .jnull then some (pyStripS (pyStrJ e.as_)) else none
  | none => none

def snapOf (p : FxParsed) (hs as_ : Option String) : Snap :=
  ⟨koFmtS p.start, p.home, p.away, p.venue, p.comp, hs, as_⟩

def summaryOf (us_home : Bool) (opponent : String) (hs as_ : Option String) : String :=
  match hs, as_ with
  | some h, some a =>
    if us_home then TEAM_NAME ++ " " ++ h ++ "–" ++ a ++ " " ++ opponent
    else opponent ++ " " ++ h ++ "–" ++ a ++ " " ++ TEAM_NAME
  | _, _ =>
    if us_home then TEAM_NAME ++ " vs " ++ opponent
    else opponent ++ " vs " ++ TEAM_NAME

def descOf (p : FxParsed) (hs as_ : Option String) : String :=
  joinSep "\\n"
    (([p.home ++ " vs " ++ p.away] ++
      (if p.comp ≠ "" then ["Competition: " ++ p.comp] else []) ++
      (if p.venue ≠ "" then ["Venue: " ++ p.venue] else []) ++
      (match hs, as_ with
       | some h, some a => ["Result: " ++ p.home ++ " " ++ h ++ "–" ++ a ++ " " ++ p.away]
       | _, _ => []) ++ LINKS).map esc)

def eventLines (uid : String) (now start endc : Civil) (sq : Nat)
    (summary venue description : String) : List String :=
  ["BEGIN:VEVENT",
   "UID:" ++ uid,
   "DTSTAMP:" ++ tsCompactS now,
   "DTSTART:" ++ tsCompactS start,
   "DTEND:" ++ tsCompactS endc,
   "SEQUENCE:" ++ natStr sq,
   "SUMMARY:" ++ esc summary,
   "LOCATION:" ++ esc venue,
   "DESCRIPTION:" ++ description,
   "END:VEVENT"]

/-- The mutable state threaded through the fixture loop. -/
structure Acc where
  state : StateMap
  seen : List String
  added : List String
  updated : List String
  evLines : List String
  built : Nat

/-- One iteration of the fixture loop (lines 206-290).  `now` stands for
`datetime.utcnow()` in DTSTAMP. -/
def processFixture (resMap : List (String × ResEntry)) (now : Civil)
    (acc : Acc) (fx : Dict) : Acc :=
  match extractFx fx with
  | none => acc
  | some p =>
    let start := p.start
    let endc := add1h (add1h start)
    let uid := make_uid start p.home p.away
    let seen' := if uid ∈ acc.seen then acc.seen else uid :: acc.seen
    let r := alookup (key_from_date_and_teams p.date p.home p.away) resMap
    let hs := hsOf r
    let as_ := asOf r
    let snap := snapOf p hs as_
    let prevO := (alookup uid acc.state).map Entry.snapshot
    let added' :=
      match prevO with
      | none => acc.added ++ [renderAdded start p.home p.away p.venue]
      | some _ => acc.added
    let updated' :=
      match prevO with
      | none => acc.updated
      | some pv =>
        let ds := computeDeltas pv snap
        if ds ≠ [] then acc.updated ++ [renderUpdated start p.home p.away ds]
        else acc.updated
    let fp := fingerprint fx r
    let sq := seqStep (alookup uid acc.state) fp
    { state := aset uid ⟨sq, fp, snap⟩ acc.state
      seen := seen'
      added := added'
      updated := updated'
      evLines := acc.evLines ++
        eventLines uid now start endc sq
          (summaryOf (usHome p.home) (oppPlain p.home p.away) hs as_)
          p.venue (descOf p hs as_)
      built := acc.built + 1 }

/-- Sort key of `safe_key` (line 180): parse failures sort as
`datetime.max`, modelled by a constant above every parseable instant. -/
def BIGKEY : Nat := 6000000000

def safeKey (fx : Dict) : Nat :=
  match dateField fx with
  | .jstr s =>
    match parse_fixture_dt_local_to_utc s with
    | some c => absMin c
    | none => BIGKEY
  | _ => BIGKEY

def insFix (f : Dict → Nat) (x : Dict) (l : List Dict) : List Dict :=
  insLe (fun a b => decide (f a < f b)) x l

/-- Stable sort by key (`fixtures.sort(key=safe_key)`; Python's sort is
stable, as is left-to-right insertion placing ties after earlier items). -/
def sortFix (f : Dict → Nat) (l : List Dict) : List Dict :=
  l.foldl (fun s x => insFix f x s) []

def insStr (x : String) (l : List String) : List String := insLe strLe x l

/-- `sorted` on a list of strings. -/
def sortStrs : List String → List String
  | [] => []
  | x :: t => insStr x (sortStrs t)

def parseKoS (s : String) : Option Civil := strpKo s.data

/-- One removed-fixture line (lines 294-299). -/
def renderRemoved (e : Entry) : String :=
  match parseKoS e.snapshot.ko with
  | some dt => "• " ++ fmt_local dt ++ " — " ++ e.snapshot.home ++ " vs " ++ e.snapshot.away
  | none => "• " ++ e.snapshot.home ++ " vs " ++ e.snapshot.away

/-- `sorted(prev_uids - seen_uids)` (prev_uids is a set of the state's
keys). -/
def removedUidList (stateIn : StateMap) (seen : List String) : List String :=
  sortStrs (((stateIn.map Prod.fst).filter (fun u => !(decide (u ∈ seen)))).dedup)

structure RunOut where
  acc : Acc
  removed : List String

def initAcc (st : StateMap) : Acc := ⟨st, [], [], [], [], 0⟩

/-- The whole per-run reconciliation: result lookup, stable sort, fixture
loop, removed detection. -/
def runCore (now : Civil) (stateIn : StateMap) (fixtures results : List Dict) : RunOut :=
  let resMap := buildResMap results
  let acc := (sortFix safeKey fixtures).foldl (processFixture resMap now) (initAcc stateIn)
  let removed := (removedUidList stateIn acc.seen).map (fun uid =>
    match alookup uid acc.state with
    | some e => renderRemoved e
    | none => "• ? vs ?")
  ⟨acc, removed⟩

def splitOnce (sep : Char) : List Char → List Char × List Char
  | [] => ([], [])
  | c :: t =>
    if c = sep then ([], t)
    else
      let p := splitOnce sep t
      (c :: p.1, p.2)

def replChar (a b : Char) (l : List Char) : List Char :=
  l.map (fun c => if c = a then b else c)

/-- A calendar-level X-property line (lines 200-203). -/
def xpropLine (link : String) : String :=
  let p := splitOnce ':' link.data
  "X-" ++ (⟨replChar '/' '-' (replChar ' ' '-' (pyUpperL (pyStripL p.1)))⟩ : String) ++
    ":" ++ (⟨pyStripL p.2⟩ : String)

def icsHeader : List String :=
  ["BEGIN:VCALENDAR", "VERSION:2.0",
   "PRODID:-//PooleTown//U18 Fixtures via FullTimeAPI//EN",
   "CALSCALE:GREGORIAN", "METHOD:PUBLISH"] ++ LINKS.map xpropLine

/-- `notify.txt` content (lines 314-324); `none` means no notify artifact. -/
def notifyText (added updated removed : List String) : Option String :=
  let sections :=
    (if added ≠ [] then
      ["<b>➕ Added fixtures</b>\n" ++ joinSep "\n" (added.map tg_escape)] else []) ++
    (if updated ≠ [] then
      ["<b>✏️ Updated fixtures</b>\n" ++ joinSep "\n" (updated.map tg_escape)] else []) ++
    (if removed ≠ [] then
      ["<b>❌ Removed fixtures</b>\n" ++ joinSep "\n" (removed.map tg_escape)] else [])
  if sections ≠ [] then some (joinSep "\n\n" sections) else none

/-- `main` after the fetches: returns `none` when nothing is written (zero
fixtures fetched, or zero events built), otherwise the ICS lines, the new
persisted state and the optional notify text. -/
def runMain (now : Civil) (stateIn : StateMap) (fixtures results : List Dict) :
    Option (List String × StateMap × Option String) :=
  if fixtures.length = 0 then none
  else
    let out := runCore now stateIn fixtures results
    if out.acc.built = 0 then none
    else
      some (icsHeader ++ out.acc.evLines ++ ["END:VCALENDAR"],
            out.acc.state,
            notifyText out.acc.added out.acc.updated out.removed)

/-! ### Association-list lemmas. -/

theorem alookup_aset_self {α : Type} (k : String) (v : α) (m : List (String × α)) :
    alookup k (aset k v m) = some v := by
  induction m with
  | nil => simp [aset, alookup]
  | cons q t ih =>
    obtain ⟨k', v'⟩ := q
    by_cases h : k' = k <;> simp [aset, alookup, h, ih]

theorem alookup_aset_ne {α : Type} {k k' : String} (v : α) (m : List (String × α))
    (h : k' ≠ k) : alookup k' (aset k v m) = alookup k' m := by
  induction m with
  | nil =>
    have hne : ¬ (k = k') := fun hc => h hc.symm
    simp [aset, alookup, hne]
  | cons q t ih =>
    obtain ⟨k0, v0⟩ := q
    by_cases h0 : k0 = k
    · subst h0
      have hne : ¬ (k0 = k') := fun hc => h hc.symm
      simp [aset, alookup, hne]
    · simp [aset, alookup, h0]
      split <;> simp [ih]

/-! ### Per-identifier revision bookkeeping. -/

/-- The stored revision of an identifier (`state.get(uid, {}).get("seq", 0)`). -/
def seqOf (st : StateMap) (u : String) : Nat :=
  ((alookup u st).map Entry.seq).getD 0

theorem seqStep_ge (old : Option Entry) (fp : String) :
    ((old.map Entry.seq).getD 0) ≤ seqStep old fp := by
  cases old with
  | none => simp [seqStep]
  | some e => simp [seqStep]; split <;> omega

/-- Names for the values `processFixture` computes for a parsed fixture. -/
def fxUid (p : FxParsed) : String := make_uid p.start p.home p.away

def fxRes (rm : List (String × ResEntry)) (p : FxParsed) : Option ResEntry :=
  alookup (key_from_date_and_teams p.date p.home p.away) rm

def fxSnap (rm : List (String × ResEntry)) (p : FxParsed) : Snap :=
  snapOf p (hsOf (fxRes rm p)) (asOf (fxRes rm p))

theorem pf_skip (rm : List (String × ResEntry)) (now : Civil) (acc : Acc) (f : Dict)
    (h : extractFx f = none) : processFixture rm now acc f = acc := by
  simp [processFixture, h]

theorem pf_state (rm : List (String × ResEntry)) (now : Civil) (acc : Acc) (f : Dict)
    (p : FxParsed) (h : extractFx f = some p) :
    (processFixture rm now acc f).state =
      aset (fxUid p)
        ⟨seqStep (alookup (fxUid p) acc.state) (fingerprint f (fxRes rm p)),
         fingerprint f (fxRes rm p), fxSnap rm p⟩ acc.state := by
  simp [processFixture, h, fxUid, fxRes, fxSnap]

theorem pf_seen (rm : List (String × ResEntry)) (now : Civil) (acc : Acc) (f : Dict)
    (p : FxParsed) (h : extractFx f = some p) :
    (processFixture rm now acc f).seen =
      (if fxUid p ∈ acc.seen then acc.seen else fxUid p :: acc.seen) := by
  simp [processFixture, h, fxUid]

theorem pf_built (rm : List (String × ResEntry)) (now : Civil) (acc : Acc) (f : Dict)
    (p : FxParsed) (h : extractFx f = some p) :
    (processFixture rm now acc f).built = acc.built + 1 := by
  simp [processFixture, h]

theorem pf_added (rm : List (String × ResEntry)) (now : Civil) (acc : Acc) (f : Dict)
    (p : FxParsed) (h : extractFx f = some p) :
    (processFixture rm now acc f).added =
      (match alookup (fxUid p) acc.state with
       | none => acc.added ++ [renderAdded p.start p.home p.away p.venue]
       | some _ => acc.added) := by
  simp only [processFixture, h, fxUid]
  cases alookup (make_uid p.start p.home p.away) acc.state <;> simp

theorem pf_updated (rm : List (String × ResEntry)) (now : Civil) (acc : Acc) (f : Dict)
    (p : FxParsed) (h : extractFx f = some p) :
    (processFixture rm now acc f).updated =
      (match alookup (fxUid p) acc.state with
       | none => acc.updated
       | some e =>
         if computeDeltas e.snapshot (fxSnap rm p) ≠ [] then
           acc.updated ++
             [renderUpdated p.start p.home p.away (computeDeltas e.snapshot (fxSnap rm p))]
         else acc.updated) := by
  simp only [processFixture, h, fxUid, fxRes, fxSnap]
  cases alookup (make_uid p.start p.home p.away) acc.state <;> simp

/-- One loop step never decreases any identifier's stored revision. -/
theorem pf_seq_mono (rm : List (String × ResEntry)) (now : Civil) (acc : Acc)
    (f : Dict) (u : String) :
    seqOf acc.state u ≤ seqOf (processFixture rm now acc f).state u := by
  cases h : extractFx f with
  | none => rw [pf_skip rm now acc f h]
  | some p =>
    rw [pf_state rm now acc f p h]
    by_cases hu : u = fxUid p
    · subst hu
      unfold seqOf
      rw [alookup_aset_self]
      simpa using seqStep_ge (alookup (fxUid p) acc.state) (fingerprint f (fxRes rm p))
    · unfold seqOf
      rw [alookup_aset_ne _ _ hu]

theorem foldl_seq_mono (rm : List (String × ResEntry)) (now : Civil)
    (l : List Dict) (acc : Acc) (u : String) :
    seqOf acc.state u ≤ seqOf ((l.foldl (processFixture rm now) acc)).state u := by
  induction l generalizing acc with
  | nil => simp
  | cons f t ih =>
    calc seqOf acc.state u ≤ seqOf (processFixture rm now acc f).state u :=
          pf_seq_mono rm now acc f u
      _ ≤ _ := ih (processFixture rm now acc f)

/-- Across a whole run, stored revisions never decrease. -/
theorem runCore_seq_mono (now : Civil) (stateIn : StateMap)
    (fixtures results : List Dict) (u : String) :
    seqOf stateIn u ≤ seqOf (runCore now stateIn fixtures results).acc.state u :=
  foldl_seq_mono (buildResMap results) now (sortFix safeKey fixtures) (initAcc stateIn) u

/-! ### Permutation facts about the sorts. -/

theorem insLe_perm {α : Type} (le : α → α → Bool) (x : α) (s : List α) :
    (insLe le x s).Perm (x :: s) := by
  induction s with
  | nil => exact List.Perm.refl _
  | cons y t ih =>
    unfold insLe
    split
    · exact List.Perm.refl _
    · exact (ih.cons y).trans (List.Perm.swap x y t)

theorem foldl_insLe_perm {α : Type} (le : α → α → Bool) :
    ∀ (l s : List α), (l.foldl (fun s x => insLe le x s) s).Perm (s ++ l) := by
  intro l
  induction l with
  | nil => intro s; simp
  | cons x t ih =>
    intro s
    have h1 := ih (insLe le x s)
    have h2 : (insLe le x s ++ t).Perm ((x :: s) ++ t) :=
      (insLe_perm le x s).append_right t
    have h3 : ((x :: s) ++ t).Perm (s ++ x :: t) := by
      simpa using List.perm_middle.symm
    exact (h1.trans h2).trans h3

theorem sortFix_perm (f : Dict → Nat) (l : List Dict) : (sortFix f l).Perm l := by
  have := foldl_insLe_perm (fun a b => decide (f a < f b)) l []
  simpa [sortFix, insFix] using this

theorem sortStrs_perm (l : List String) : (sortStrs l).Perm l := by
  induction l with
  | nil => exact List.Perm.refl _
  | cons x t ih =>
    exact ((insLe_perm strLe x (sortStrs t)).trans (ih.cons x))

theorem sortPairs_perm {α : Type} (l : List (String × α)) : (sortPairs l).Perm l := by
  induction l with
  | nil => exact List.Perm.refl _
  | cons p t ih =>
    exact ((insLe_perm pairLe p (sortPairs t)).trans (ih.cons p))

/-! ### Skipped records and the no-write conditions. -/

theorem foldl_all_skip (rm : List (String × ResEntry)) (now : Civil) :
    ∀ (l : List Dict) (acc : Acc), (∀ f ∈ l, extractFx f = none) →
      l.foldl (processFixture rm now) acc = acc := by
  intro l
  induction l with
  | nil => intro acc _; rfl
  | cons f t ih =>
    intro acc h
    have hf := h f (by simp)
    rw [List.foldl_cons, pf_skip rm now acc f hf]
    exact ih acc (fun g hg => h g (by simp [hg]))

/-- The UID a fixture record would contribute, when it survives extraction. -/
def uidOfFx (f : Dict) : Option String := (extractFx f).map fun p => fxUid p

theorem pf_seen_mem (rm : List (String × ResEntry)) (now : Civil) (acc : Acc)
    (f : Dict) (u : String) :
    u ∈ (processFixture rm now acc f).seen ↔
      u ∈ acc.seen ∨ uidOfFx f = some u := by
  cases h : extractFx f with
  | none => rw [pf_skip rm now acc f h]; simp [uidOfFx, h]
  | some p =>
    rw [pf_seen rm now acc f p h]
    simp only [uidOfFx, h, Option.map_some]
    split
    · constructor
      · intro hm; exact Or.inl hm
      · rintro (hm | hm)
        · exact hm
        · simp at hm; subst hm; assumption
    · simp [eq_comm, or_comm]

theorem foldl_seen_mem (rm : List (String × ResEntry)) (now : Civil) :
    ∀ (l : List Dict) (acc : Acc) (u : String),
      (u ∈ (l.foldl (processFixture rm now) acc).seen ↔
        u ∈ acc.seen ∨ ∃ f ∈ l, uidOfFx f = some u) := by
  intro l
  induction l with
  | nil => simp
  | cons f t ih =>
    intro acc u
    rw [List.foldl_cons, ih (processFixture rm now acc f) u, pf_seen_mem]
    constructor
    · rintro ((h | h) | h)
      · exact Or.inl h
      · exact Or.inr ⟨f, by simp, h⟩
      · obtain ⟨g, hg, hu⟩ := h
        exact Or.inr ⟨g, by simp [hg], hu⟩
    · rintro (h | ⟨g, hg, hu⟩)
      · exact Or.inl (Or.inl h)
      · rcases List.mem_cons.mp hg with hg | hg
        · subst hg; exact Or.inl (Or.inr hu)
        · exact Or.inr ⟨g, hg, hu⟩

theorem pf_state_untouched (rm : List (String × ResEntry)) (now : Civil) (acc : Acc)
    (f : Dict) (u : String) (h : uidOfFx f ≠ some u) :
    alookup u (processFixture rm now acc f).state = alookup u acc.state := by
  cases he : extractFx f with
  | none => rw [pf_skip rm now acc f he]
  | some p =>
    rw [pf_state rm now acc f p he]
    have hne : u ≠ fxUid p := by
      intro hc; subst hc; exact h (by simp [uidOfFx, he])
    exact alookup_aset_ne _ _ hne

theorem foldl_state_untouched (rm : List (String × ResEntry)) (now : Civil) :
    ∀ (l : List Dict) (acc : Acc) (u : String),
      (∀ f ∈ l, uidOfFx f ≠ some u) →
      alookup u (l.foldl (processFixture rm now) acc).state = alookup u acc.state := by
  intro l
  induction l with
  | nil => intro acc u _; rfl
  | cons f t ih =>
    intro acc u h
    rw [List.foldl_cons, ih _ u (fun g hg => h g (by simp [hg])),
      pf_state_untouched rm now acc f u (h f (by simp))]

/-! ### Closed forms for the added/updated lists (distinct-UID runs). -/

/-- The added-lines a fixture contributes, judged against the prior state. -/
def addedOfFix (stateIn : StateMap) (f : Dict) : List String :=
  match extractFx f with
  | some p =>
    match alookup (fxUid p) stateIn with
    | none => [renderAdded p.start p.home p.away p.venue]
    | some _ => []
  | none => []

/-- The updated-lines a fixture contributes, judged against the prior state. -/
def updatedOfFix (rm : List (String × ResEntry)) (stateIn : StateMap) (f : Dict) :
    List String :=
  match extractFx f with
  | some p =>
    match alookup (fxUid p) stateIn with
    | some e =>
      if computeDeltas e.snapshot (fxSnap rm p) ≠ [] then
        [renderUpdated p.start p.home p.away (computeDeltas e.snapshot (fxSnap rm p))]
      else []
    | none => []
  | none => []

/-- When no two fixtures of the run share a UID, every loop iteration sees
the prior persisted state at its own UID, and the added/updated lists are
exactly the per-fixture contributions judged against the prior state. -/
theorem foldl_added_updated (rm : List (String × ResEntry)) (now : Civil)
    (stateIn : StateMap) :
    ∀ (l : List Dict) (acc : Acc),
      (l.filterMap uidOfFx).Nodup →
      (∀ f ∈ l, ∀ u, uidOfFx f = some u → alookup u acc.state = alookup u stateIn) →
      (l.foldl (processFixture rm now) acc).added =
          acc.added ++ l.flatMap (addedOfFix stateIn) ∧
        (l.foldl (processFixture rm now) acc).updated =
          acc.updated ++ l.flatMap (updatedOfFix rm stateIn) := by
  intro l
  induction l with
  | nil => intro acc _ _; simp
  | cons f t ih =>
    intro acc hnd hag
    cases he : extractFx f with
    | none =>
      have hstep : processFixture rm now acc f = acc := pf_skip rm now acc f he
      have hnd' : (t.filterMap uidOfFx).Nodup := by
        have : (f :: t).filterMap uidOfFx = t.filterMap uidOfFx := by
          simp [List.filterMap_cons, uidOfFx, he]
        rwa [this] at hnd
      have hag' : ∀ g ∈ t, ∀ u, uidOfFx g = some u →
          alookup u acc.state = alookup u stateIn :=
        fun g hg => hag g (by simp [hg])
      obtain ⟨ha,hu⟩ := ih acc hnd' hag'
      rw [List.foldl_cons, hstep]
      constructor
      · rw [ha]; simp [addedOfFix, he]
      · rw [hu]; simp [updatedOfFix, he]
    | some p =>
      have huid : uidOfFx f = some (fxUid p) := by simp [uidOfFx, he]
      have hlook : alookup (fxUid p) acc.state = alookup (fxUid p) stateIn :=
        hag f (by simp) (fxUid p) huid
      have hfm : (f :: t).filterMap uidOfFx = fxUid p :: t.filterMap uidOfFx := by
        simp [List.filterMap_cons, huid]
      have hnotin : fxUid p ∉ t.filterMap uidOfFx := by
        rw [hfm] at hnd
        exact (List.nodup_cons.mp hnd).1
      have hnd' : (t.filterMap uidOfFx).Nodup := by
        rw [hfm] at hnd
        exact (List.nodup_cons.mp hnd).2
      have hag' : ∀ g ∈ t, ∀ u, uidOfFx g = some u →
          alookup u (processFixture rm now acc f).state = alookup u stateIn := by
        intro g hg u hu
        have hne : u ≠ fxUid p := by
          intro hc
          subst hc
          exact hnotin (List.mem_filterMap.mpr ⟨g, hg, hu⟩)
        rw [pf_state rm now acc f p he, alookup_aset_ne _ _ hne]
        exact hag g (by simp [hg]) u hu
      obtain ⟨ha, hu⟩ := ih (processFixture rm now acc f) hnd' hag'
      rw [List.foldl_cons]
      constructor
      · rw [ha, pf_added rm now acc f p he, hlook]
        cases halt : alookup (fxUid p) stateIn <;>
          simp [addedOfFix, he, halt]
      · rw [hu, pf_updated rm now acc f p he, hlook]
        cases halt : alookup (fxUid p) stateIn with
        | none => simp [updatedOfFix, he, halt]
        | some e =>
          by_cases hds : computeDeltas e.snapshot (fxSnap rm p) ≠ [] <;>
            simp [updatedOfFix, he, halt, hds]

/-! ### Order facts for `lexLe` and sortedness of `sortPairs`. -/

theorem charToNat_inj {c d : Char} (h : c.toNat = d.toNat) : c = d := by
  have := congrArg Char.ofNat h
  rwa [Char.ofNat_toNat, Char.ofNat_toNat] at this

theorem lexLe_total : ∀ a b : List Char, lexLe a b = true ∨ lexLe b a = true := by
  intro a
  induction a with
  | nil => intro b; left; rfl
  | cons c s ih =>
    intro b
    cases b with
    | nil => right; rfl
    | cons d t =>
      unfold lexLe
      by_cases h1 : c.toNat < d.toNat
      · left; simp [h1]
      · by_cases h2 : d.toNat < c.toNat
        · right; simp [h1, h2]
        · simpa [h1, h2] using ih t

theorem lexLe_antisymm : ∀ a b : List Char,
    lexLe a b = true → lexLe b a = true → a = b := by
  intro a
  induction a with
  | nil =>
    intro b _ hba
    cases b with
    | nil => rfl
    | cons d t => simp [lexLe] at hba
  | cons c s ih =>
    intro b hab hba
    cases b with
    | nil => simp [lexLe] at hab
    | cons d t =>
      unfold lexLe at hab hba
      split_ifs at hab hba <;> first
      | (exfalso; omega)
      | (simp at hab)
      | (simp at hba)
      | (have hcd : c = d := charToNat_inj (by omega)
         rw [hcd, ih t hab hba])

theorem lexLe_trans : ∀ a b c : List Char,
    lexLe a b = true → lexLe b c = true → lexLe a c = true := by
  intro a
  induction a with
  | nil => intro b c _ _; rfl
  | cons x s ih =>
    intro b c hab hbc
    cases b with
    | nil => simp [lexLe] at hab
    | cons y t =>
      cases c with
      | nil => simp [lexLe] at hbc
      | cons z u =>
        unfold lexLe at hab hbc ⊢
        split_ifs at hab hbc ⊢ <;> first
        | rfl
        | (exfalso; omega)
        | (simp at hab)
        | (simp at hbc)
        | (exact ih t u hab hbc)

theorem strLe_total (a b : String) : strLe a b = true ∨ strLe b a = true :=
  lexLe_total a.data b.data

theorem strLe_antisymm {a b : String} (h1 : strLe a b = true) (h2 : strLe b a = true) :
    a = b := by
  obtain ⟨la⟩ := a
  obtain ⟨lb⟩ := b
  exact congrArg String.mk (lexLe_antisymm la lb h1 h2)

theorem strLe_trans {a b c : String} (h1 : strLe a b = true) (h2 : strLe b c = true) :
    strLe a c = true :=
  lexLe_trans a.data b.data c.data h1 h2

theorem mem_insLe {α : Type} (le : α → α → Bool) (x z : α) (l : List α) :
    z ∈ insLe le x l ↔ z = x ∨ z ∈ l := by
  rw [(insLe_perm le x l).mem_iff]
  simp

theorem pairwise_insLe {α : Type} (le : α → α → Bool)
    (htot : ∀ a b, le a b = true ∨ le b a = true)
    (htrans : ∀ a b c, le a b = true → le b c = true → le a c = true) (x : α) :
    ∀ l, List.Pairwise (fun a b => le a b = true) l →
      List.Pairwise (fun a b => le a b = true) (insLe le x l) := by
  intro l
  induction l with
  | nil => intro _; simp [insLe]
  | cons y t ih =>
    intro hp
    obtain ⟨hy, ht⟩ := List.pairwise_cons.mp hp
    unfold insLe
    split_ifs with h
    · refine List.pairwise_cons.mpr ⟨?_, hp⟩
      intro z hz
      rcases List.mem_cons.mp hz with hz | hz
      · subst hz; exact h
      · exact htrans x y z h (hy z hz)
    · refine List.pairwise_cons.mpr ⟨?_, ih ht⟩
      intro z hz
      rcases (mem_insLe le x z t).mp hz with hz | hz
      · rcases htot x y with hxy | hyx
        · exact absurd hxy h
        · rw [hz]; exact hyx
      · exact hy z hz

theorem sorted_sortPairs {α : Type} (l : List (String × α)) :
    List.Pairwise (fun p q => pairLe p q = true) (sortPairs l) := by
  induction l with
  | nil => simp [sortPairs]
  | cons p t ih =>
    unfold sortPairs
    refine pairwise_insLe pairLe ?_ ?_ p (sortPairs t) ih
    · intro a b; exact strLe_total a.1 b.1
    · intro a b c h1 h2; exact strLe_trans h1 h2

theorem eq_of_perm_sorted_nodupkeys {α : Type} :
    ∀ (l₁ l₂ : List (String × α)), l₁.Perm l₂ →
      List.Pairwise (fun p q => pairLe p q = true) l₁ →
      List.Pairwise (fun p q => pairLe p q = true) l₂ →
      (l₁.map Prod.fst).Nodup → l₁ = l₂ := by
  intro l₁
  induction l₁ with
  | nil =>
    intro l₂ hp _ _ _
    exact (hp.symm.eq_nil).symm
  | cons a t₁ ih =>
    intro l₂ hp hs₁ hs₂ hnd
    cases l₂ with
    | nil => simpa using hp.length_eq
    | cons b t₂ =>
      by_cases hab : a = b
      · subst hab
        have ht := hp.cons_inv
        have hnd' : (t₁.map Prod.fst).Nodup := by
          simp only [List.map_cons, List.nodup_cons] at hnd
          exact hnd.2
        rw [ih t₂ ht (List.pairwise_cons.mp hs₁).2 (List.pairwise_cons.mp hs₂).2 hnd']
      · exfalso
        have hain : a ∈ b :: t₂ := hp.mem_iff.mp (by simp)
        have hbin : b ∈ a :: t₁ := hp.symm.mem_iff.mp (by simp)
        have ha2 : a ∈ t₂ := by
          rcases List.mem_cons.mp hain with h | h
          · exact absurd h hab
          · exact h
        have hb1 : b ∈ t₁ := by
          rcases List.mem_cons.mp hbin with h | h
          · exact absurd h.symm hab
          · exact h
        have h1 : pairLe a b = true := (List.pairwise_cons.mp hs₁).1 b hb1
        have h2 : pairLe b a = true := (List.pairwise_cons.mp hs₂).1 a ha2
        have hk : a.1 = b.1 := strLe_antisymm h1 h2
        have hmem : a.1 ∈ t₁.map Prod.fst := List.mem_map.mpr ⟨b, hb1, hk.symm⟩
        simp only [List.map_cons, List.nodup_cons] at hnd
        exact hnd.1 hmem

theorem sortPairs_eq_of_perm {α : Type} (l₁ l₂ : List (String × α))
    (hp : l₁.Perm l₂) (hnd : (l₁.map Prod.fst).Nodup) :
    sortPairs l₁ = sortPairs l₂ := by
  refine eq_of_perm_sorted_nodupkeys _ _
    ((sortPairs_perm l₁).trans (hp.trans (sortPairs_perm l₂).symm))
    (sorted_sortPairs l₁) (sorted_sortPairs l₂) ?_
  exact (((sortPairs_perm l₁).map Prod.fst).nodup_iff).mpr hnd

/-- Order-independence of the serialized record, hence the fingerprint. -/
theorem fingerprint_perm (fx₁ fx₂ : Dict) (r : Option ResEntry)
    (hp : fx₁.Perm fx₂) (hnd : (fx₁.map Prod.fst).Nodup) :
    fingerprint fx₁ r = fingerprint fx₂ r := by
  unfold fingerprint dumpTopL dumpPairsL
  rw [sortPairs_eq_of_perm fx₁ fx₂ hp hnd]

/-! ### Injectivity of the rendered compact timestamp, and uid structure. -/

theorem digitChar10_isDigit {d : Nat} (h : d < 10) : (digitChar10 d).isDigit = true := by
  interval_cases d <;> decide

theorem digitChar10_inj {a b : Nat} (ha : a < 10) (hb : b < 10)
    (h : digitChar10 a = digitChar10 b) : a = b := by
  interval_cases a <;> interval_cases b <;> simp_all [digitChar10]

theorem map_digitChar10_inj : ∀ (l₁ l₂ : List Nat),
    (∀ x ∈ l₁, x < 10) → (∀ x ∈ l₂, x < 10) →
    l₁.map digitChar10 = l₂.map digitChar10 → l₁ = l₂ := by
  intro l₁
  induction l₁ with
  | nil =>
    intro l₂ _ _ h
    cases l₂ with
    | nil => rfl
    | cons y t => simp at h
  | cons x s ih =>
    intro l₂ h1 h2 h
    cases l₂ with
    | nil => simp at h
    | cons y t =>
      simp only [List.map_cons, List.cons.injEq] at h
      have hx := digitChar10_inj (h1 x (by simp)) (h2 y (by simp)) h.1
      rw [hx, ih t (fun z hz => h1 z (by simp [hz])) (fun z hz => h2 z (by simp [hz])) h.2]

theorem natDecL_digits (n : Nat) : ∀ x ∈ natDecL n, x.isDigit = true := by
  rw [natDecL_eq]
  intro x hx
  simp only [List.mem_map, List.mem_reverse] at hx
  obtain ⟨d, hd, rfl⟩ := hx
  exact digitChar10_isDigit (Nat.digits_lt_base (by norm_num) hd)

theorem natDecL_inj {a b : Nat} (h : natDecL a = natDecL b) : a = b := by
  rw [natDecL_eq, natDecL_eq] at h
  have hb1 : ∀ x ∈ (Nat.digits 10 a).reverse, x < 10 := by
    intro x hx
    exact Nat.digits_lt_base (by norm_num) (List.mem_reverse.mp hx)
  have hb2 : ∀ x ∈ (Nat.digits 10 b).reverse, x < 10 := by
    intro x hx
    exact Nat.digits_lt_base (by norm_num) (List.mem_reverse.mp hx)
  have hrev := map_digitChar10_inj _ _ hb1 hb2 h
  have hd : Nat.digits 10 a = Nat.digits 10 b := List.reverse_inj.mp hrev
  calc a = Nat.ofDigits 10 (Nat.digits 10 a) := (Nat.ofDigits_digits 10 a).symm
    _ = Nat.ofDigits 10 (Nat.digits 10 b) := by rw [hd]
    _ = b := Nat.ofDigits_digits 10 b

theorem pad2_digits (n : Nat) : ∀ x ∈ pad2L n, x.isDigit = true := by
  intro x hx
  simp only [pad2L, List.mem_cons, List.not_mem_nil, or_false] at hx
  rcases hx with rfl | rfl
  · exact digitChar10_isDigit (Nat.mod_lt _ (by norm_num))
  · exact digitChar10_isDigit (Nat.mod_lt _ (by norm_num))

theorem pad2_inj {a b : Nat} (ha : a < 100) (hb : b < 100) (h : pad2L a = pad2L b) :
    a = b := by
  simp only [pad2L, List.cons.injEq, and_true] at h
  have h1 := digitChar10_inj (Nat.mod_lt _ (by norm_num)) (Nat.mod_lt _ (by norm_num)) h.1
  have h2 := digitChar10_inj (Nat.mod_lt _ (by norm_num)) (Nat.mod_lt _ (by norm_num)) h.2
  omega

theorem isDigit_ne_dash {c : Char} (h : c.isDigit = true) : c ≠ '-' := by
  intro hc
  subst hc
  simp [Char.isDigit] at h

theorem tsCompact_chars (c : Civil) :
    ∀ x ∈ tsCompactL c, x.isDigit = true ∨ x = 'T' ∨ x = 'Z' := by
  intro x hx
  unfold tsCompactL at hx
  rcases List.mem_append.mp hx with h | h
  · rcases List.mem_append.mp h with h | h
    · rcases List.mem_append.mp h with h | h
      · exact Or.inl (natDecL_digits c.year x h)
      · exact Or.inl (pad2_digits c.month x h)
    · exact Or.inl (pad2_digits c.day x h)
  · rcases List.mem_cons.mp h with h | h
    · exact Or.inr (Or.inl h)
    · rcases List.mem_append.mp h with h | h
      · rcases List.mem_append.mp h with h | h
        · exact Or.inl (pad2_digits c.hour x h)
        · exact Or.inl (pad2_digits c.minute x h)
      · rcases List.mem_cons.mp h with h | h
        · exact Or.inl (by rw [h]; decide)
        · rcases List.mem_cons.mp h with h | h
          · exact Or.inl (by rw [h]; decide)
          · rcases List.mem_cons.mp h with h | h
            · exact Or.inr (Or.inr h)
            · exact absurd h (List.not_mem_nil x)

theorem tsCompact_no_dash (c : Civil) : '-' ∉ tsCompactL c := by
  intro hm
  rcases tsCompact_chars c '-' hm with h | h | h
  · exact isDigit_ne_dash h rfl
  · exact absurd h (by decide)
  · exact absurd h (by decide)

theorem append_dash_inj : ∀ (a₁ a₂ r₁ r₂ : List Char), '-' ∉ a₁ → '-' ∉ a₂ →
    a₁ ++ '-' :: r₁ = a₂ ++ '-' :: r₂ → a₁ = a₂ ∧ r₁ = r₂ := by
  intro a₁
  induction a₁ with
  | nil =>
    intro a₂ r₁ r₂ _ h2 h
    cases a₂ with
    | nil => simpa using h
    | cons c t =>
      exfalso
      simp only [List.nil_append, List.cons_append, List.cons.injEq] at h
      exact h2 (by rw [← h.1]; simp)
  | cons c t ih =>
    intro a₂ r₁ r₂ h1 h2 h
    cases a₂ with
    | nil =>
      exfalso
      simp only [List.nil_append, List.cons_append, List.cons.injEq] at h
      exact h1 (by rw [h.1]; simp)
    | cons d u =>
      simp only [List.cons_append, List.cons.injEq] at h
      have ht := ih u r₁ r₂ (fun hc => h1 (by simp [hc])) (fun hc => h2 (by simp [hc])) h.2
      exact ⟨by rw [h.1, ht.1], ht.2⟩

theorem list_append_cancel_right {α : Type} {as bs cs : List α}
    (h : as ++ bs = cs ++ bs) : as = cs := by
  have hl := congrArg List.length h
  simp only [List.length_append] at hl
  exact (List.append_inj h (by omega)).1

/-- A valid civil instant is recoverable from its compact timestamp. -/
theorem tsCompact_fields {c₁ c₂ : Civil} (h₁ : c₁.Valid) (h₂ : c₂.Valid)
    (h : tsCompactL c₁ = tsCompactL c₂) : c₁ = c₂ := by
  obtain ⟨y₁, mo₁, d₁, hr₁, mi₁⟩ := c₁
  obtain ⟨y₂, mo₂, d₂, hr₂, mi₂⟩ := c₂
  simp only [Civil.Valid] at h₁ h₂
  unfold tsCompactL at h
  simp only [List.append_assoc] at h
  have hlen := congrArg List.length h
  simp only [List.length_append, List.length_cons, pad2L,
    List.length_nil] at hlen
  have hylen : (natDecL y₁).length = (natDecL y₂).length := by omega
  obtain ⟨hy, h⟩ := List.append_inj h hylen
  have hyv : y₁ = y₂ := natDecL_inj hy
  obtain ⟨hmo, h⟩ := List.append_inj h (by simp [pad2L])
  have hmov : mo₁ = mo₂ := pad2_inj (by omega) (by omega) hmo
  obtain ⟨hd, h⟩ := List.append_inj h (by simp [pad2L])
  have hdv : d₁ = d₂ := by
    have h31 := monthLen_le_31 (isLeap y₁) mo₁
    have h31' := monthLen_le_31 (isLeap y₂) mo₂
    exact pad2_inj (by omega) (by omega) hd
  simp only [List.cons.injEq, true_and] at h
  obtain ⟨hhr, h⟩ := List.append_inj h (by simp [pad2L])
  have hhrv : hr₁ = hr₂ := pad2_inj (by omega) (by omega) hhr
  obtain ⟨hmi, _⟩ := List.append_inj h (by simp [pad2L])
  have hmiv : mi₁ = mi₂ := pad2_inj (by omega) (by omega) hmi
  simp [hyv, hmov, hdv, hhrv, hmiv]

/-- Equal UIDs with equal start instants force equal side flags and equal
opponent slugs. -/
theorem make_uid_same_start {c : Civil} {h₁ a₁ h₂ a₂ : String}
    (h : make_uid c h₁ a₁ = make_uid c h₂ a₂) :
    usHome h₁ = usHome h₂ ∧ slugL (oppOf h₁ a₁).data = slugL (oppOf h₂ a₂).data := by
  unfold make_uid at h
  have h2 := congrArg String.data h
  have h' := List.append_cancel_left (List.append_cancel_left
    (by simpa only [List.append_assoc] using h2))
  injection h' with hd1 h'
  injection h' with hhoa h'
  injection h' with hd2 hslug
  have hside : usHome h₁ = usHome h₂ := by
    by_cases hb₁ : usHome h₁ <;> by_cases hb₂ : usHome h₂ <;> simp_all
  exact ⟨hside, list_append_cancel_right hslug⟩

/-- Equal UIDs of valid instants force equal start instants (the UID embeds
the full compact timestamp). -/
theorem make_uid_start_inj {c₁ c₂ : Civil} {h₁ a₁ h₂ a₂ : String}
    (hv₁ : c₁.Valid) (hv₂ : c₂.Valid)
    (h : make_uid c₁ h₁ a₁ = make_uid c₂ h₂ a₂) : c₁ = c₂ := by
  unfold make_uid at h
  have h2 := congrArg String.data h
  have h' := List.append_cancel_left
    (by simpa only [List.append_assoc] using h2 :
      "ptfc-u18-".data ++ (tsCompactL c₁ ++
        ('-' :: (if usHome h₁ then 'h' else 'a') :: '-' ::
          (slugL (oppOf h₁ a₁).data ++ "@poole-town".data))) =
      "ptfc-u18-".data ++ (tsCompactL c₂ ++
        ('-' :: (if usHome h₂ then 'h' else 'a') :: '-' ::
          (slugL (oppOf h₂ a₂).data ++ "@poole-town".data))))
  have hts := (append_dash_inj _ _ _ _ (tsCompact_no_dash c₁) (tsCompact_no_dash c₂) h').1
  exact tsCompact_fields hv₁ hv₂ hts

/-! ### Validity of parsed instants. -/

theorem char_digit_bounds {c : Char} (h : c.isDigit = true) :
    48 ≤ c.toNat ∧ c.toNat ≤ 57 := by
  simp [Char.isDigit] at h
  exact h

theorem num2_spec {s : List Char} {vr : Nat × List Char} (h : num2 s = some vr) :
    vr.1 ≤ 99 := by
  rcases s with _ | ⟨a, _ | ⟨b, t⟩⟩ <;> simp [num2] at h
  obtain ⟨⟨ha, hb⟩, hv, _⟩ := h
  have hda := char_digit_bounds ha
  have hdb := char_digit_bounds hb
  show 10 * dval a + dval b ≤ 99
  unfold dval
  omega

theorem num1_spec {s : List Char} {vr : Nat × List Char} (h : num1 s = some vr) :
    vr.1 ≤ 9 := by
  rcases s with _ | ⟨a, t⟩ <;> simp [num1] at h
  obtain ⟨ha, hv, _⟩ := h
  have hda := char_digit_bounds ha
  show dval a ≤ 9
  unfold dval
  omega

theorem fieldAlt_some {ok2 ok1 : Nat → Bool} {k : Nat → List Char → Option Civil}
    {s : List Char} {c : Civil} (h : fieldAlt ok2 ok1 k s = some c) :
    ∃ v r, ((ok2 v = true ∧ v ≤ 99) ∨ (ok1 v = true ∧ v ≤ 9)) ∧ k v r = some c := by
  unfold fieldAlt at h
  cases h2 : num2 s with
  | none =>
    rw [h2] at h
    cases h1 : num1 s with
    | none => rw [h1] at h; simp at h
    | some wr =>
      rw [h1] at h
      obtain ⟨w, r1⟩ := wr
      by_cases hok : ok1 w = true
      · simp only [hok, if_true] at h
        exact ⟨w, r1, Or.inr ⟨hok, num1_spec h1⟩, h⟩
      · simp [hok] at h
  | some vr =>
    rw [h2] at h
    obtain ⟨v, r⟩ := vr
    cases hk : (if ok2 v = true then k v r else none) with
    | some c' =>
      simp only [hk] at h
      by_cases hok : ok2 v = true
      · rw [if_pos hok] at hk
        exact ⟨v, r, Or.inl ⟨hok, num2_spec h2⟩, by rw [hk, h]⟩
      · rw [if_neg hok] at hk
        exact absurd hk (by simp)
    | none =>
      simp only [hk] at h
      cases h1 : num1 s with
      | none => rw [h1] at h; simp at h
      | some wr =>
        rw [h1] at h
        obtain ⟨w, r1⟩ := wr
        by_cases hok : ok1 w = true
        · simp only [hok, if_true] at h
          exact ⟨w, r1, Or.inr ⟨hok, num1_spec h1⟩, h⟩
        · simp [hok] at h

theorem mkC_some {y m d hh mi : Nat} {c : Civil} (h : mkC y m d hh mi = some c) :
    c = ⟨y, m, d, hh, mi⟩ ∧ 1 ≤ y ∧ d ≤ monthLen (isLeap y) m := by
  unfold mkC at h
  split_ifs at h with hc
  · simp at h
    exact ⟨h.symm, hc.1, hc.2⟩

theorem strpDT_valid {y4 : Bool} {s : List Char} {c : Civil}
    (h : strpDT y4 s = some c) : c.Valid := by
  unfold strpDT at h
  obtain ⟨d, r1, hd, h⟩ := fieldAlt_some h
  rw [Option.bind_eq_some] at h
  obtain ⟨r2, _, h⟩ := h
  obtain ⟨m, r3, hm, h⟩ := fieldAlt_some h
  rw [Option.bind_eq_some] at h
  obtain ⟨r4, _, h⟩ := h
  rw [Option.bind_eq_some] at h
  obtain ⟨vr, _, h⟩ := h
  rw [Option.bind_eq_some] at h
  obtain ⟨r6, _, h⟩ := h
  obtain ⟨hr, r7, hhok, h⟩ := fieldAlt_some h
  rw [Option.bind_eq_some] at h
  obtain ⟨r8, _, h⟩ := h
  obtain ⟨mi, r9, hmiok, h⟩ := fieldAlt_some h
  by_cases h9 : r9 = []
  · rw [if_pos h9] at h
    obtain ⟨hc, hy, hdm⟩ := mkC_some h
    subst hc
    have hdb : 1 ≤ d := by
      rcases hd with ⟨hb, _⟩ | ⟨hb, _⟩ <;> simp [dayOk2, dayOk1] at hb <;> omega
    have hmb : 1 ≤ m ∧ m ≤ 12 := by
      rcases hm with ⟨hb, _⟩ | ⟨hb, _⟩ <;> simp [monOk2, monOk1] at hb <;> omega
    have hhb : hr ≤ 23 := by
      rcases hhok with ⟨hb, _⟩ | ⟨_, hb9⟩
      · simp [hourOk2] at hb; omega
      · omega
    have hmib : mi ≤ 59 := by
      rcases hmiok with ⟨hb, _⟩ | ⟨_, hb9⟩
      · simp [minOk2] at hb; omega
      · omega
    exact ⟨hy, by show 1 ≤ m; omega, by show m ≤ 12; omega, by show 1 ≤ d; omega,
      hdm, by show hr ≤ 23; omega, by show mi ≤ 59; omega⟩
  · rw [if_neg h9] at h
    exact absurd h (by simp)

theorem valid_sub1h_bst {c : Civil} (h : c.Valid) (h3 : 3 ≤ c.month) :
    (sub1h c).Valid := by
  obtain ⟨y, mo, d, hr, mi⟩ := c
  simp only [Civil.Valid] at h
  obtain ⟨hy, hm1, hm2, hd1, hd2, hh, hmin⟩ := h
  simp only at h3
  simp only [sub1h]
  split_ifs with h1 h2 h4
  · exact ⟨hy, hm1, hm2, hd1, hd2, by simp; omega, hmin⟩
  · exact ⟨hy, hm1, hm2, by simp; omega, by simp; omega, by simp, hmin⟩
  · have hpos := monthLen_pos (isLeap y) (mo - 1) (by omega) (by omega)
    exact ⟨hy, by simp; omega, by simp; omega, by simp; omega, by simp, by simp, hmin⟩
  · omega

theorem valid_londonToUtc {c : Civil} (h : c.Valid) : (londonToUtc c).Valid := by
  unfold londonToUtc
  split_ifs with hb
  · have hbp : springK c.year ≤ yearKey c := by
      unfold isBSTlocal at hb
      simp only [Bool.and_eq_true, decide_eq_true_eq] at hb
      exact hb.1
    have hsb := springK_bounds c.year
    exact valid_sub1h_bst h (month_ge_3_of_yearKey h (by omega))
  · exact h

theorem parse_valid {s : String} {c : Civil}
    (h : parse_fixture_dt_local_to_utc s = some c) : c.Valid := by
  unfold parse_fixture_dt_local_to_utc at h
  by_cases h0 : s = ""
  · rw [if_pos h0] at h; simp at h
  · rw [if_neg h0] at h
    cases h1 : strpDT false s.data with
    | some c1 =>
      rw [h1] at h
      simp at h
      rw [← h]
      exact valid_londonToUtc (strpDT_valid h1)
    | none =>
      rw [h1] at h
      cases h2 : strpDT true s.data with
      | some c2 =>
        rw [h2] at h
        simp at h
        rw [← h]
        exact valid_londonToUtc (strpDT_valid h2)
      | none =>
        rw [h2] at h
        simp at h

/-! ### The "time" delta is unreachable for pipeline-written state. -/

theorem extractFx_parse {f : Dict} {p : FxParsed} (h : extractFx f = some p) :
    parse_fixture_dt_local_to_utc p.date = some p.start := by
  unfold extractFx at h
  cases hdf : dateField f <;> simp only [hdf] at h
  · simp at h
  · simp at h
  case jstr ds =>
  cases hh : strField1 f "homeTeam" <;> simp only [hh] at h
  · simp at h
  case some home =>
  cases ha : strField1 f "awayTeam" <;> simp only [ha] at h
  · simp at h
  case some away =>
  cases hv : strField2 f "location" "ground" <;> simp only [hv] at h
  · simp at h
  case some venue =>
  cases hc : strField1 f "competition" <;> simp only [hc] at h
  · simp at h
  case some comp =>
  cases hp : parse_fixture_dt_local_to_utc ds <;> simp only [hp] at h
  · simp at h
  case some start =>
  simp only [Option.some.injEq] at h
  rw [← h]
  exact hp

theorem extractFx_valid {f : Dict} {p : FxParsed} (h : extractFx f = some p) :
    p.start.Valid :=
  parse_valid (extractFx_parse h)

/-- Every persisted entry was written by this pipeline: its snapshot's
kickoff string matches the instant embedded in its UID. -/
def KoConsistent (st : StateMap) : Prop :=
  ∀ u e, alookup u st = some e →
    ∃ c hm aw, c.Valid ∧ u = make_uid c hm aw ∧ e.snapshot.ko = koFmtS c

/-- Every line of the list is an updated-line whose delta list lacks
"time". -/
def NoTimeLines (lines : List String) : Prop :=
  ∀ s ∈ lines, ∃ start home away ds,
    s = renderUpdated start home away ds ∧ "time" ∉ ds

theorem ne_score_str (x : String) : ("score " ++ x) ≠ "time" := by
  intro hc
  have hd := congrArg String.data hc
  rw [String.data_append] at hd
  simp at hd

theorem time_not_mem {pv snap : Snap} (h : pv.ko = snap.ko) :
    "time" ∉ computeDeltas pv snap := by
  intro hm
  unfold computeDeltas at hm
  rw [if_neg (by simp [h])] at hm
  simp only [List.nil_append, List.mem_append] at hm
  rcases hm with (hm | hm) | hm
  · split_ifs at hm <;> exact absurd hm (by decide)
  · split_ifs at hm <;> exact absurd hm (by decide)
  · split_ifs at hm with h1 h2
    · simp only [List.mem_singleton] at hm
      exact ne_score_str _ hm.symm
    · simp only [List.mem_singleton] at hm
      exact absurd hm (by decide)
    · exact absurd hm (by decide)

theorem pf_koConsistent (rm : List (String × ResEntry)) (now : Civil) (acc : Acc)
    (f : Dict) (hk : KoConsistent acc.state) :
    KoConsistent (processFixture rm now acc f).state := by
  cases he : extractFx f with
  | none => rw [pf_skip rm now acc f he]; exact hk
  | some p =>
    rw [pf_state rm now acc f p he]
    intro u e hu
    by_cases huid : u = fxUid p
    · subst huid
      rw [alookup_aset_self] at hu
      have he' : e = ⟨seqStep (alookup (fxUid p) acc.state) (fingerprint f (fxRes rm p)),
          fingerprint f (fxRes rm p), fxSnap rm p⟩ := by
        injection hu with hu
        exact hu.symm
      refine ⟨p.start, p.home, p.away, extractFx_valid he, rfl, ?_⟩
      rw [he']
      rfl
    · rw [alookup_aset_ne _ _ huid] at hu
      exact hk u e hu

theorem pf_noTime (rm : List (String × ResEntry)) (now : Civil) (acc : Acc)
    (f : Dict) (hk : KoConsistent acc.state) (hnt : NoTimeLines acc.updated) :
    NoTimeLines (processFixture rm now acc f).updated := by
  cases he : extractFx f with
  | none => rw [pf_skip rm now acc f he]; exact hnt
  | some p =>
    rw [pf_updated rm now acc f p he]
    cases hl : alookup (fxUid p) acc.state with
    | none => exact hnt
    | some e =>
      obtain ⟨c, hm, aw, hcv, hui, hko⟩ := hk (fxUid p) e hl
      have hstart : c = p.start :=
        make_uid_start_inj hcv (extractFx_valid he) hui.symm
      have hko' : e.snapshot.ko = (fxSnap rm p).ko := by
        rw [hko, hstart]
        rfl
      dsimp only
      split_ifs with hds
      · intro s hs
        rcases List.mem_append.mp hs with hs | hs
        · exact hnt s hs
        · simp only [List.mem_singleton] at hs
          exact ⟨p.start, p.home, p.away, _, hs, time_not_mem hko'⟩
      · exact hnt

theorem foldl_koTime (rm : List (String × ResEntry)) (now : Civil) :
    ∀ (l : List Dict) (acc : Acc), KoConsistent acc.state → NoTimeLines acc.updated →
      KoConsistent ((l.foldl (processFixture rm now) acc)).state ∧
        NoTimeLines ((l.foldl (processFixture rm now) acc)).updated := by
  intro l
  induction l with
  | nil => intro acc hk hnt; exact ⟨hk, hnt⟩
  | cons f t ih =>
    intro acc hk hnt
    exact ih (processFixture rm now acc f)
      (pf_koConsistent rm now acc f hk) (pf_noTime rm now acc f hk hnt)

/-- Whole-run form: starting from consistent state, every updated line's
delta list lacks "time", and consistency is preserved. -/
theorem runCore_koTime (now : Civil) (stateIn : StateMap)
    (fixtures results : List Dict) (hk : KoConsistent stateIn) :
    KoConsistent (runCore now stateIn fixtures results).acc.state ∧
      NoTimeLines (runCore now stateIn fixtures results).acc.updated := by
  refine foldl_koTime (buildResMap results) now (sortFix safeKey fixtures)
    (initAcc stateIn) hk ?_
  intro s hs
  simp [initAcc] at hs

/-! ### Run-level corollaries. -/

theorem absMin_add2h {c : Civil} (h : c.Valid) :
    absMin (add1h (add1h c)) = absMin c + 120 := by
  rw [absMin_add1h (valid_add1h h), absMin_add1h h]

theorem mem_removedUidList (stateIn : StateMap) (seen : List String) (u : String) :
    u ∈ removedUidList stateIn seen ↔ u ∈ stateIn.map Prod.fst ∧ u ∉ seen := by
  unfold removedUidList
  rw [(sortStrs_perm _).mem_iff, List.mem_dedup, List.mem_filter]
  simp

theorem runCore_seen_mem (now : Civil) (stateIn : StateMap)
    (fixtures results : List Dict) (u : String) :
    u ∈ (runCore now stateIn fixtures results).acc.seen ↔
      ∃ f ∈ fixtures, uidOfFx f = some u := by
  unfold runCore
  dsimp only
  rw [foldl_seen_mem]
  simp only [initAcc, List.not_mem_nil, false_or]
  constructor
  · rintro ⟨f, hf, hu⟩
    exact ⟨f, (sortFix_perm safeKey fixtures).mem_iff.mp hf, hu⟩
  · rintro ⟨f, hf, hu⟩
    exact ⟨f, (sortFix_perm safeKey fixtures).mem_iff.mpr hf, hu⟩

theorem runCore_added_updated (now : Civil) (stateIn : StateMap)
    (fixtures results : List Dict)
    (hnd : (fixtures.filterMap uidOfFx).Nodup) :
    (runCore now stateIn fixtures results).acc.added =
        (sortFix safeKey fixtures).flatMap (addedOfFix stateIn) ∧
      (runCore now stateIn fixtures results).acc.updated =
        (sortFix safeKey fixtures).flatMap (updatedOfFix (buildResMap results) stateIn) := by
  have hnd' : ((sortFix safeKey fixtures).filterMap uidOfFx).Nodup :=
    (((sortFix_perm safeKey fixtures).filterMap uidOfFx).nodup_iff).mpr hnd
  have h := foldl_added_updated (buildResMap results) now stateIn
    (sortFix safeKey fixtures) (initAcc stateIn) hnd' (fun f _ u _ => rfl)
  simpa [runCore, initAcc] using h

theorem flatMap_nil_of_all {α β : Type} (g : α → List β) :
    ∀ l : List α, (∀ x ∈ l, g x = []) → l.flatMap g = [] := by
  intro l
  induction l with
  | nil => intro _; rfl
  | cons x t ih =>
    intro h
    rw [List.flatMap_cons, h x (by simp), ih (fun z hz => h z (by simp [hz]))]
    rfl

theorem computeDeltas_refl (s : Snap) : computeDeltas s s = [] := by
  simp [computeDeltas]

theorem runCore_removed_len (now : Civil) (stateIn : StateMap)
    (fixtures results : List Dict) :
    (runCore now stateIn fixtures results).removed.length =
      (removedUidList stateIn (runCore now stateIn fixtures results).acc.seen).length := by
  simp [runCore]

theorem runMain_no_write (now : Civil) (stateIn : StateMap)
    (fixtures results : List Dict)
    (h : fixtures = [] ∨ ∀ f ∈ fixtures, extractFx f = none) :
    runMain now stateIn fixtures results = none := by
  rcases h with h | h
  · subst h; rfl
  · unfold runMain
    by_cases hl : fixtures.length = 0
    · simp [hl]
    · rw [if_neg hl]
      have hall : ∀ f ∈ sortFix safeKey fixtures, extractFx f = none :=
        fun f hf => h f ((sortFix_perm safeKey fixtures).mem_iff.mp hf)
      have hacc : (runCore now stateIn fixtures results).acc.built = 0 := by
        unfold runCore
        dsimp only
        rw [foldl_all_skip _ _ _ _ hall]
        rfl
      simp [hacc]

/-! ### Concrete records used by the scenario theorems. -/

/-- A fixed DTSTAMP instant standing for `datetime.utcnow()`. -/
def cNow : Civil := ⟨2025, 9, 1, 12, 0⟩

/-- The scenario fixture: home Poole Town U18, away Example Town,
kickoff `07/09/25 14:00` local. -/
def fxEx : Dict :=
  [("homeTeam", .jstr "Poole Town FC Wessex U18 Colts"),
   ("awayTeam", .jstr "Example Town"),
   ("fixtureDateTime", .jstr "07/09/25 14:00")]

/-- The scenario kickoff as a UTC instant (13:00Z under BST). -/
def cKick : Civil := ⟨2025, 9, 7, 13, 0⟩

/-- The extracted form of `fxEx`. -/
def pWitEx : FxParsed :=
  ⟨"07/09/25 14:00", "Poole Town FC Wessex U18 Colts", "Example Town", "", "", cKick⟩

/-- A fixture whose date parses under no accepted format. -/
def fxBad : Dict :=
  [("homeTeam", .jstr "A"), ("awayTeam", .jstr "B"),
   ("fixtureDateTime", .jstr "not a date")]

/-- The 2–1 result for the scenario fixture. -/
def resEx : Dict :=
  [("homeTeam", .jstr "Poole Town FC Wessex U18 Colts"),
   ("awayTeam", .jstr "Example Town"),
   ("resultDateTime", .jstr "07/09/25 14:00"),
   ("homeScore", .jnum 2), ("awayScore", .jnum 1)]

/-- A result whose home score is the number 0 (a falsy value in Python). -/
def resZero : Dict :=
  [("homeTeam", .jstr "A"), ("awayTeam", .jstr "B"),
   ("resultDateTime", .jstr "07/09/25 14:00"),
   ("homeScore", .jnum 0), ("awayScore", .jnum 1)]

/-- State persisted by a first run that saw only `fxEx` (scoreless). -/
def stPrev7 : StateMap := (runCore cNow [] [fxEx] []).acc.state

/-- The follow-up run in which the 2–1 result arrives. -/
def out7 : RunOut := runCore cNow stPrev7 [fxEx] [resEx]

def sampleSnap : Snap := ⟨"", "", "", "", "", none, none⟩

/-- A snapshot carrying the 2–1 score. -/
def snapSc : Snap := ⟨"k", "H", "A", "V", "C", some "2", some "1"⟩

/-! ### The claims. -/

/-- C1: for every Identifier the revision counter is 0 on first sighting
(no stored entry), left unchanged when the stored fingerprint equals the
new one, incremented by exactly one when it differs — `seqStep` is the
update rule of lines 269-272 — and the stored revision is monotonically
non-decreasing across any run (hence across any sequence of runs). -/
theorem claim_C1 :
    (∀ fp : String, seqStep none fp = 0) ∧
    (∀ (e : Entry) (fp : String), e.fp = fp → seqStep (some e) fp = e.seq) ∧
    (∀ (e : Entry) (fp : String), e.fp ≠ fp → seqStep (some e) fp = e.seq + 1) ∧
    (∀ (now : Civil) (stateIn : StateMap) (fixtures results : List Dict) (u : String),
      seqOf stateIn u ≤ seqOf (runCore now stateIn fixtures results).acc.state u) := by
  refine ⟨fun fp => rfl, ?_, ?_, runCore_seq_mono⟩
  · intro e fp h
    simp [seqStep, h]
  · intro e fp h
    simp [seqStep, h]

theorem claim_C1_witness :
    seqStep none "z" = 0 ∧
      seqStep (some ⟨3, "a", sampleSnap⟩) "a" = 3 ∧
      seqStep (some ⟨3, "a", sampleSnap⟩) "b" = 4 ∧
      seqOf [] "u" ≤ seqOf (runCore cNow [] [fxEx] []).acc.state "u" :=
  ⟨claim_C1.1 "z", claim_C1.2.1 ⟨3, "a", sampleSnap⟩ "a" rfl,
   claim_C1.2.2.1 ⟨3, "a", sampleSnap⟩ "b" (by decide),
   claim_C1.2.2.2 cNow [] [fxEx] [] "u"⟩

/-- C3: a run whose fixture feed is empty, or in which no fixture survives
normalization/parsing (so zero events are built), performs no calendar
write and no state write: `runMain` returns `none`, modelling the early
returns at lines 165-167 and 302-304, so the prior output and state stay
untouched. -/
theorem claim_C3 (now : Civil) (stateIn : StateMap) (fixtures results : List Dict)
    (h : fixtures = [] ∨ ∀ f ∈ fixtures, extractFx f = none) :
    runMain now stateIn fixtures results = none :=
  runMain_no_write now stateIn fixtures results h

theorem claim_C3_witness :
    runMain cNow [] [] [] = none ∧ runMain cNow [] [fxBad] [] = none :=
  ⟨claim_C3 cNow [] [] [] (Or.inl rfl),
   claim_C3 cNow [] [fxBad] [] (Or.inr (by decide))⟩

theorem pf_evlines (rm : List (String × ResEntry)) (now : Civil) (acc : Acc)
    (f : Dict) (p : FxParsed) (h : extractFx f = some p) :
    (processFixture rm now acc f).evLines =
      acc.evLines ++ eventLines (fxUid p) now p.start (add1h (add1h p.start))
        (seqStep (alookup (fxUid p) acc.state) (fingerprint f (fxRes rm p)))
        (summaryOf (usHome p.home) (oppPlain p.home p.away)
          (hsOf (fxRes rm p)) (asOf (fxRes rm p)))
        p.venue (descOf p (hsOf (fxRes rm p)) (asOf (fxRes rm p))) := by
  simp [processFixture, h, fxUid, fxRes]

/-- C5: the temporal resolver rejects the empty string, accepts exactly the
two formats `%d/%m/%y %H:%M` and `%d/%m/%Y %H:%M`, interprets the string as
Europe/London wall clock converted to UTC (the definition of
`parse_fixture_dt_local_to_utc`); every built event's end instant is the
start plus the 2-hour `EVENT_DURATION` (two one-hour steps, which move the
absolute minute count by exactly 120); and on the scenario fixture the run
emits summary "Poole Town FC Wessex U18 Colts vs Example Town", DTSTART
2025-09-07T13:00:00Z and DTEND two hours later. -/
theorem claim_C5 :
    parse_fixture_dt_local_to_utc "" = none ∧
    (∀ s : String, (parse_fixture_dt_local_to_utc s).isSome ↔
      s ≠ "" ∧ ((strpDT false s.data).isSome ∨ (strpDT true s.data).isSome)) ∧
    (∀ c : Civil, c.Valid → absMin (add1h (add1h c)) = absMin c + 120) ∧
    (∀ (rm : List (String × ResEntry)) (now : Civil) (acc : Acc) (f : Dict) (p : FxParsed),
      extractFx f = some p →
      (processFixture rm now acc f).evLines =
        acc.evLines ++ eventLines (fxUid p) now p.start (add1h (add1h p.start))
          (seqStep (alookup (fxUid p) acc.state) (fingerprint f (fxRes rm p)))
          (summaryOf (usHome p.home) (oppPlain p.home p.away)
            (hsOf (fxRes rm p)) (asOf (fxRes rm p)))
          p.venue (descOf p (hsOf (fxRes rm p)) (asOf (fxRes rm p)))) ∧
    "SUMMARY:Poole Town FC Wessex U18 Colts vs Example Town"
      ∈ (runCore cNow [] [fxEx] []).acc.evLines ∧
    "DTSTART:20250907T130000Z" ∈ (runCore cNow [] [fxEx] []).acc.evLines ∧
    "DTEND:20250907T150000Z" ∈ (runCore cNow [] [fxEx] []).acc.evLines := by
  refine ⟨by decide, ?_, fun c h => absMin_add2h h, pf_evlines, by decide, by decide, by decide⟩
  intro s
  unfold parse_fixture_dt_local_to_utc
  by_cases h0 : s = ""
  · simp [h0]
  · rw [if_neg h0]
    cases h1 : strpDT false s.data with
    | some c => simp [h0]
    | none =>
      cases h2 : strpDT true s.data with
      | some c => simp [h0]
      | none => simp [h0]

theorem claim_C5_witness :
    absMin (add1h (add1h cKick)) = absMin cKick + 120 ∧
      (processFixture (buildResMap []) cNow (initAcc []) fxEx).evLines =
        (initAcc []).evLines ++ eventLines (fxUid pWitEx) cNow pWitEx.start
          (add1h (add1h pWitEx.start))
          (seqStep (alookup (fxUid pWitEx) (initAcc []).state)
            (fingerprint fxEx (fxRes (buildResMap []) pWitEx)))
          (summaryOf (usHome pWitEx.home) (oppPlain pWitEx.home pWitEx.away)
            (hsOf (fxRes (buildResMap []) pWitEx)) (asOf (fxRes (buildResMap []) pWitEx)))
          pWitEx.venue
          (descOf pWitEx (hsOf (fxRes (buildResMap []) pWitEx))
            (asOf (fxRes (buildResMap []) pWitEx))) :=
  ⟨claim_C5.2.2.1 cKick (by decide),
   claim_C5.2.2.2.1 (buildResMap []) cNow (initAcc []) fxEx pWitEx (by decide)⟩

/-- C6 (amended): for every string in either accepted format, converting
the resolver's UTC instant back to Europe/London reproduces the original
wall clock, **except** for the non-existent wall-clock times in the
spring-forward gap (last Sunday of March, 01:00-01:59 local), which come
back shifted one hour forward. -/
theorem claim_C6 (s : String) (c : Civil)
    (h : strpDT false s.data = some c ∨ strpDT true s.data = some c)
    (hg : inSpringGap c = false) :
    utcToLondon (londonToUtc c) = c := by
  rcases h with h | h <;> exact london_round_trip (strpDT_valid h) hg

/-- C6 counterexample: "30/03/25 01:30" parses, but the round trip lands on
02:30, not the original 01:30 wall clock. -/
theorem claim_C6_counterexample :
    strpDT false "30/03/25 01:30".data = some ⟨2025, 3, 30, 1, 30⟩ ∧
      parse_fixture_dt_local_to_utc "30/03/25 01:30" = some ⟨2025, 3, 30, 1, 30⟩ ∧
      utcToLondon (londonToUtc ⟨2025, 3, 30, 1, 30⟩) = ⟨2025, 3, 30, 2, 30⟩ ∧
      (⟨2025, 3, 30, 2, 30⟩ : Civil) ≠ ⟨2025, 3, 30, 1, 30⟩ :=
  ⟨by decide, by decide, by decide, by decide⟩

theorem claim_C6_witness :
    utcToLondon (londonToUtc ⟨2025, 9, 7, 14, 0⟩) = ⟨2025, 9, 7, 14, 0⟩ :=
  claim_C6 "07/09/25 14:00" ⟨2025, 9, 7, 14, 0⟩ (Or.inl (by decide)) (by decide)

/-- C8: the score extraction `r.get("homeScore") or r.get("homeGoals")`
drops a score of 0 under the first alias when the second alias is missing
(Python `or` treats 0 as falsy), so the claim's "a numeric value (including
0) is always extracted" fails: the failing input `{"homeScore": 0}` is
normalized to an absent score, also through `buildResMap`; a non-zero
value is extracted as the claim states. -/
theorem claim_C8 :
    hsVal [("homeScore", JVal.jnum 0)] = JVal.jnull ∧
      hsOf (some ⟨hsVal [("homeScore", JVal.jnum 0)],
        asVal [("homeScore", JVal.jnum 0)]⟩) = none ∧
      buildResMap [resZero] =
        [(key_from_date_and_teams "07/09/25 14:00" "A" "B",
          ⟨JVal.jnull, JVal.jnum 1⟩)] ∧
      hsVal [("homeScore", JVal.jnum 2)] = JVal.jnum 2 :=
  ⟨by decide, by decide, by decide, by decide⟩

/-- C9: the fingerprint serializes the record with keys sorted
(`sort_keys=True`), so two fixture dicts holding the same key-value pairs
in any insertion order fingerprint identically, and fingerprinting is
deterministic across runs. -/
theorem claim_C9 :
    (∀ (fx₁ fx₂ : Dict) (r : Option ResEntry), fx₁.Perm fx₂ →
      (fx₁.map Prod.fst).Nodup → fingerprint fx₁ r = fingerprint fx₂ r) ∧
    (∀ (fx : Dict) (r : Option ResEntry), fingerprint fx r = fingerprint fx r) :=
  ⟨fingerprint_perm, fun _ _ => rfl⟩

theorem claim_C9_witness :
    fingerprint [("a", JVal.jnum 1), ("b", JVal.jnum 2)] none =
      fingerprint [("b", JVal.jnum 2), ("a", JVal.jnum 1)] none :=
  claim_C9.1 [("a", JVal.jnum 1), ("b", JVal.jnum 2)]
    [("b", JVal.jnum 2), ("a", JVal.jnum 1)] none (by decide) (by decide)

/-- Two fixture records with the same kickoff and teams (hence the same
UID) but different venues, in one run. -/
def fxDupA : Dict :=
  [("homeTeam", .jstr "Poole Town FC Wessex U18 Colts"),
   ("awayTeam", .jstr "Example Town"),
   ("fixtureDateTime", .jstr "07/09/25 14:00"),
   ("location", .jstr "Ground A")]

def fxDupB : Dict :=
  [("homeTeam", .jstr "Poole Town FC Wessex U18 Colts"),
   ("awayTeam", .jstr "Example Town"),
   ("fixtureDateTime", .jstr "07/09/25 14:00"),
   ("location", .jstr "Ground B")]

/-- C2 counterexample: with an **empty** prior state (so every Identifier
is absent from prior persisted state), a run containing two fixture records
that collide on one Identifier still emits an Updated classification — the
second occurrence is compared against the in-run write of the first — so
"an Identifier absent from prior state is never classified Updated" fails
as stated. -/
theorem claim_C2_counterexample :
    (runCore cNow [] [fxDupA, fxDupB] []).acc.updated ≠ [] ∧
      (∀ u : String, alookup u ([] : StateMap) = none) :=
  ⟨by decide, fun _ => rfl⟩

/-- C2 (amended): provided no two fixtures of the run share an Identifier,
the change detector classifies against the prior persisted state exactly:
the added and updated lists are the per-fixture contributions judged
against the prior state (`addedOfFix` emits a line exactly when the UID is
absent from prior state; `updatedOfFix` emits one only for a UID present in
prior state and only when the delta list is non-empty, and identical
snapshots give an empty delta list); removed UIDs are exactly those present
in prior state and absent from the current run's seen set. -/
theorem claim_C2 (now : Civil) (stateIn : StateMap) (fixtures results : List Dict) :
    ((fixtures.filterMap uidOfFx).Nodup →
      (runCore now stateIn fixtures results).acc.added =
          (sortFix safeKey fixtures).flatMap (addedOfFix stateIn) ∧
        (runCore now stateIn fixtures results).acc.updated =
          (sortFix safeKey fixtures).flatMap (updatedOfFix (buildResMap results) stateIn)) ∧
    (∀ u, u ∈ removedUidList stateIn (runCore now stateIn fixtures results).acc.seen ↔
      u ∈ stateIn.map Prod.fst ∧ ¬ ∃ f ∈ fixtures, uidOfFx f = some u) ∧
    (runCore now stateIn fixtures results).removed.length =
      (removedUidList stateIn (runCore now stateIn fixtures results).acc.seen).length ∧
    (∀ s : Snap, computeDeltas s s = []) := by
  refine ⟨runCore_added_updated now stateIn fixtures results, ?_,
    runCore_removed_len now stateIn fixtures results, computeDeltas_refl⟩
  intro u
  rw [mem_removedUidList]
  exact and_congr_right fun _ =>
    not_congr (runCore_seen_mem now stateIn fixtures results u)

theorem claim_C2_witness :
    (runCore cNow [] [fxEx] []).acc.added =
        (sortFix safeKey [fxEx]).flatMap (addedOfFix []) ∧
      (runCore cNow [] [fxEx] []).acc.updated =
        (sortFix safeKey [fxEx]).flatMap (updatedOfFix (buildResMap []) []) :=
  (claim_C2 cNow [] [fxEx] []).1 (by decide)

/-- C4 counterexample: two records at the same instant against *different*
opponents ("St. Ives" and "St Ives" are different away-team strings) can
yield the *same* Identifier, because slugging collapses punctuation. -/
theorem claim_C4_counterexample :
    ("St. Ives" : String) ≠ "St Ives" ∧
      make_uid cKick "Poole Town FC Wessex U18 Colts" "St. Ives" =
        make_uid cKick "Poole Town FC Wessex U18 Colts" "St Ives" :=
  ⟨by decide, by decide⟩

/-- C4 (amended): the Identity Assigner is a deterministic function of the
start instant, home and away names only — it ignores the date string,
venue and competition fields of the record (and no score enters it) — and
two records at the same instant yield distinct Identifiers whenever the
tracked team's side differs, or the side agrees and the two opponents'
*slugs* differ (slug-equal opponent names, e.g. differing only in
punctuation, collide). -/
theorem claim_C4 :
    (∀ p₁ p₂ : FxParsed, p₁.start = p₂.start → p₁.home = p₂.home →
      p₁.away = p₂.away → fxUid p₁ = fxUid p₂) ∧
    (∀ (c : Civil) (h₁ a₁ h₂ a₂ : String), usHome h₁ = usHome h₂ →
      slugL (oppOf h₁ a₁).data ≠ slugL (oppOf h₂ a₂).data →
      make_uid c h₁ a₁ ≠ make_uid c h₂ a₂) ∧
    (∀ (c : Civil) (h₁ a₁ h₂ a₂ : String), usHome h₁ ≠ usHome h₂ →
      make_uid c h₁ a₁ ≠ make_uid c h₂ a₂) := by
  refine ⟨?_, ?_, ?_⟩
  · intro p₁ p₂ hs hh ha
    unfold fxUid make_uid oppOf usHome
    rw [hs, hh, ha]
  · intro c h₁ a₁ h₂ a₂ _ hslug hc
    exact hslug (make_uid_same_start hc).2
  · intro c h₁ a₁ h₂ a₂ hside hc
    exact hside (make_uid_same_start hc).1

theorem claim_C4_witness :
    fxUid ⟨"d1", "Poole Town FC Wessex U18 Colts", "Example Town", "V1", "C1", cKick⟩ =
        fxUid ⟨"d2", "Poole Town FC Wessex U18 Colts", "Example Town", "V2", "C2", cKick⟩ ∧
      make_uid cKick "Poole Town FC Wessex U18 Colts" "Alpha" ≠
        make_uid cKick "Poole Town FC Wessex U18 Colts" "Beta" :=
  ⟨claim_C4.1 _ _ rfl rfl rfl,
   claim_C4.2.1 cKick "Poole Town FC Wessex U18 Colts" "Alpha"
     "Poole Town FC Wessex U18 Colts" "Beta" (by decide) (by decide)⟩

/-- C7 counterexample: in the follow-up run the previously scoreless
scenario fixture (stored snapshot has no scores) receives the 2–1 result,
yet the change detector's only updated line carries the generic label
`score {home} {hs}–{as} {away}` — the string "score added" appears in no
updated line, so no distinct "score added" label exists. -/
theorem claim_C7_counterexample :
    (alookup (make_uid cKick "Poole Town FC Wessex U18 Colts" "Example Town")
        stPrev7).map (fun e => (e.snapshot.hs, e.snapshot.as_)) = some (none, none) ∧
      out7.acc.updated =
        ["• Sun 07 Sep 2025 14:00 — Poole Town FC Wessex U18 Colts vs Example Town (score Poole Town FC Wessex U18 Colts 2–1 Example Town)"] ∧
      (∀ s ∈ out7.acc.updated, containsSub s.data "score added".data = false) :=
  ⟨by decide, by decide, by decide⟩

/-- C7 (amended): a score transition from unset to set is reported with the
same generic label `score {home} {hs}–{as} {away}` that is also used when a
set score changes value (there is no distinct "score added" label); a
transition to an unset score is reported as "score cleared"; and for the
scenario (2–1 arriving for a previously scoreless fixture) the updated line
carries that generic score delta and the summary changes to include
"2–1". -/
theorem claim_C7 :
    (∀ pv snap : Snap, (pv.hs, pv.as_) ≠ (snap.hs, snap.as_) →
      snap.hs.isSome = true → snap.as_.isSome = true →
      ("score " ++ snap.home ++ " " ++ snap.hs.getD "" ++ "–" ++
        snap.as_.getD "" ++ " " ++ snap.away) ∈ computeDeltas pv snap) ∧
    (∀ pv snap : Snap, (pv.hs, pv.as_) ≠ (snap.hs, snap.as_) →
      ¬ (snap.hs.isSome = true ∧ snap.as_.isSome = true) →
      "score cleared" ∈ computeDeltas pv snap) ∧
    out7.acc.updated =
      ["• Sun 07 Sep 2025 14:00 — Poole Town FC Wessex U18 Colts vs Example Town (score Poole Town FC Wessex U18 Colts 2–1 Example Town)"] ∧
    "SUMMARY:Poole Town FC Wessex U18 Colts 2–1 Example Town" ∈ out7.acc.evLines := by
  refine ⟨?_, ?_, by decide, by decide⟩
  · intro pv snap hne hhs has
    have hb : (snap.hs.isSome && snap.as_.isSome) = true := by
      simp [hhs, has]
    simp [computeDeltas, hne, hb]
  · intro pv snap hne hun
    have hb : (snap.hs.isSome && snap.as_.isSome) = false := by
      cases hh : snap.hs.isSome <;> cases ha : snap.as_.isSome <;> simp_all
    simp [computeDeltas, hne, hb]

theorem claim_C7_witness :
    ("score " ++ snapSc.home ++ " " ++ snapSc.hs.getD "" ++ "–" ++
        snapSc.as_.getD "" ++ " " ++ snapSc.away) ∈ computeDeltas sampleSnap snapSc ∧
      "score cleared" ∈ computeDeltas snapSc sampleSnap :=
  ⟨claim_C7.1 sampleSnap snapSc (by decide) (by decide) (by decide),
   claim_C7.2.1 snapSc sampleSnap (by decide) (by decide)⟩

/-- C10: the Identifier embeds the full compact kickoff timestamp, so (i)
two UID-equal valid instants render the same snapshot `ko` string; hence
(ii) on any state every entry of which was written by this pipeline
(`KoConsistent`, preserved by every run), (iii) no updated line's delta
list can contain "time" — the `"time"` branch of the change detector is
unreachable; (iv) a changed kickoff instant forces a different Identifier,
which (v) is classified Added when absent from prior state, while (vi) the
old Identifier, no longer seen, lands in the removed list. -/
theorem claim_C10 :
    (∀ (c₁ c₂ : Civil) (h₁ a₁ h₂ a₂ : String), c₁.Valid → c₂.Valid →
      make_uid c₁ h₁ a₁ = make_uid c₂ h₂ a₂ → koFmtS c₁ = koFmtS c₂) ∧
    (∀ (now : Civil) (stateIn : StateMap) (fixtures results : List Dict),
      KoConsistent stateIn →
      KoConsistent (runCore now stateIn fixtures results).acc.state) ∧
    (∀ (now : Civil) (stateIn : StateMap) (fixtures results : List Dict),
      KoConsistent stateIn →
      ∀ s ∈ (runCore now stateIn fixtures results).acc.updated,
        ∃ start home away ds, s = renderUpdated start home away ds ∧ "time" ∉ ds) ∧
    (∀ (c₁ c₂ : Civil) (hm aw : String), c₁.Valid → c₂.Valid → c₁ ≠ c₂ →
      make_uid c₁ hm aw ≠ make_uid c₂ hm aw) ∧
    (∀ (rm : List (String × ResEntry)) (now : Civil) (acc : Acc) (f : Dict)
      (p : FxParsed), extractFx f = some p → alookup (fxUid p) acc.state = none →
      (processFixture rm now acc f).added =
        acc.added ++ [renderAdded p.start p.home p.away p.venue]) ∧
    (∀ (now : Civil) (stateIn : StateMap) (fixtures results : List Dict) (u : String),
      u ∈ stateIn.map Prod.fst → (¬ ∃ f ∈ fixtures, uidOfFx f = some u) →
      u ∈ removedUidList stateIn (runCore now stateIn fixtures results).acc.seen) := by
  refine ⟨?_, ?_, ?_, ?_, ?_, ?_⟩
  · intro c₁ c₂ h₁ a₁ h₂ a₂ hv₁ hv₂ h
    rw [make_uid_start_inj hv₁ hv₂ h]
  · intro now stateIn fixtures results hk
    exact (runCore_koTime now stateIn fixtures results hk).1
  · intro now stateIn fixtures results hk
    exact (runCore_koTime now stateIn fixtures results hk).2
  · intro c₁ c₂ hm aw hv₁ hv₂ hne hc
    exact hne (make_uid_start_inj hv₁ hv₂ hc)
  · intro rm now acc f p he hl
    rw [pf_added rm now acc f p he, hl]
  · intro now stateIn fixtures results u hu hnot
    rw [mem_removedUidList]
    exact ⟨hu, fun hc =>
      hnot ((runCore_seen_mem now stateIn fixtures results u).mp hc)⟩

theorem claim_C10_witness :
    koFmtS cKick = koFmtS cKick ∧
      KoConsistent (runCore cNow [] [fxEx] []).acc.state ∧
      (runCore cNow ([] : StateMap) [fxEx] []).acc.updated = [] ∧
      "ptfc-u18-20250907T130000Z-h-example-town@poole-town"
        ∈ removedUidList
          [("ptfc-u18-20250907T130000Z-h-example-town@poole-town",
            ⟨0, "", sampleSnap⟩)]
          (runCore cNow [("ptfc-u18-20250907T130000Z-h-example-town@poole-town",
            ⟨0, "", sampleSnap⟩)] [fxBad] []).acc.seen := by
  have hkEmpty : KoConsistent ([] : StateMap) := by
    intro u e h
    simp [alookup] at h
  refine ⟨claim_C10.1 cKick cKick "h" "a" "h" "a" (by decide) (by decide) rfl,
    claim_C10.2.1 cNow [] [fxEx] [] hkEmpty, by decide, ?_⟩
  exact claim_C10.2.2.2.2.2 cNow _ [fxBad] []
    "ptfc-u18-20250907T130000Z-h-example-town@poole-town" (by decide) (by decide)

end PooleCal
